import Mathlib

/-!
Verification development for the `avro-no-std` schema canonicalization
library.  The repository's own source (`src/avro_validation.rs`) contains the
error type and four wrapper functions (`fingerprint_raw_schema`,
`fingerprint_raw_schema_list`, `translate_schema`, `translate_schemas`); the
schema parser and the Parsing-Canonical-Form printer it delegates to
(`Schema::parse_str`, `Schema::canonical_form` of the `apache_avro` crate) are
not part of the repository, so they are modelled here from the specification
(sections 3 and 4.1): a JSON-shaped schema grammar over the tagged `Schema`
variants, name-environment resolution for named types, duplicate-union-branch
rejection, and the attribute-stripped canonical printer.
-/

namespace AvroNoStd

/-- Characters allowed in Avro names (identifier letters, digits, underscore,
and the dot separating fully-qualified name segments). -/
def nameChar (c : Char) : Bool :=
  c.isAlphanum || c = '_' || c = '.'

/-- Modelled from the spec: a valid (fully-qualified) Avro name is a nonempty
string of identifier characters. -/
def validName (s : String) : Bool :=
  !s.data.isEmpty && s.data.all nameChar

/-- JSON whitespace. -/
def isWs (c : Char) : Bool :=
  c = ' ' || c = '\n' || c = '\t' || c = '\r'

/-- Decimal digit test. -/
def isDigitChar (c : Char) : Bool :=
  '0' ≤ c && c ≤ '9'

mutual

/-- JSON values, as far as the schema grammar needs them: strings, unsigned
integers, booleans, null, arrays and objects. -/
inductive Json where
  | str (s : String)
  | num (n : Nat)
  | bool (b : Bool)
  | null
  | arr (elems : JArr)
  | obj (entries : JObj)
deriving DecidableEq

/-- A list of JSON values (array elements). -/
inductive JArr where
  | nil
  | cons (hd : Json) (tl : JArr)
deriving DecidableEq

/-- A list of key/value pairs (object entries). -/
inductive JObj where
  | nil
  | cons (key : String) (val : Json) (tl : JObj)
deriving DecidableEq

end

mutual

/-- Node count of a JSON value, used as parser/builder fuel. -/
def jsonSize : Json → Nat
  | .str _ => 1
  | .num _ => 1
  | .bool _ => 1
  | .null => 1
  | .arr xs => 1 + jsonSizeA xs
  | .obj es => 1 + jsonSizeO es

/-- Node count of a JSON array. -/
def jsonSizeA : JArr → Nat
  | .nil => 0
  | .cons v vs => 1 + jsonSize v + jsonSizeA vs

/-- Node count of a JSON object. -/
def jsonSizeO : JObj → Nat
  | .nil => 0
  | .cons _ v es => 1 + jsonSize v + jsonSizeO es

end

/-- The decimal digit character for `n < 10`. -/
def digitChar (n : Nat) : Char :=
  Char.ofNat (48 + n)

/-- Fuel-driven decimal printer (most significant digit first). -/
def natCharsAux : Nat → Nat → List Char
  | 0, _ => []
  | f + 1, n => if n < 10 then [digitChar n] else natCharsAux f (n / 10) ++ [digitChar (n % 10)]

/-- Decimal representation of a natural number. -/
def natChars (n : Nat) : List Char :=
  natCharsAux (n + 1) n

/-- A JSON string literal: quote, raw characters, quote.  Canonical output
only ever contains `nameChar` characters, which need no escaping. -/
def printString (s : String) : List Char :=
  '"' :: s.data ++ ['"']

mutual

/-- Canonical (whitespace-free) printer for JSON values. -/
def printJson : Json → List Char
  | .str s => printString s
  | .num n => natChars n
  | .bool b => if b then ['t', 'r', 'u', 'e'] else ['f', 'a', 'l', 's', 'e']
  | .null => ['n', 'u', 'l', 'l']
  | .arr xs => '[' :: printArr xs
  | .obj es => Char.ofNat 123 :: printObj es

/-- Prints array elements followed by the closing bracket. -/
def printArr : JArr → List Char
  | .nil => [']']
  | .cons v vs => printJson v ++ printArrTail vs

/-- Prints `,elem` for each remaining element, then the closing bracket. -/
def printArrTail : JArr → List Char
  | .nil => [']']
  | .cons v vs => ',' :: (printJson v ++ printArrTail vs)

/-- Prints object entries followed by the closing brace. -/
def printObj : JObj → List Char
  | .nil => [Char.ofNat 125]
  | .cons k v es => printString k ++ ':' :: (printJson v ++ printObjTail es)

/-- Prints `,"key":value` for each remaining entry, then the closing brace. -/
def printObjTail : JObj → List Char
  | .nil => [Char.ofNat 125]
  | .cons k v es => ',' :: (printString k ++ ':' :: (printJson v ++ printObjTail es))

end

/-- Drop leading JSON whitespace. -/
def skipWs : List Char → List Char
  | [] => []
  | c :: cs => if isWs c then skipWs cs else c :: cs

/-- Characters reachable through a JSON string escape. -/
def escChar (c : Char) : Option Char :=
  if c = '"' then some '"'
  else if c = '\\' then some '\\'
  else if c = '/' then some '/'
  else if c = 'n' then some '\n'
  else if c = 't' then some '\t'
  else if c = 'r' then some '\r'
  else none

/-- Parses the body of a JSON string literal up to the closing quote,
returning the characters and the rest of the input. -/
def parseStringBody : List Char → Except String (List Char × List Char)
  | [] => .error "malformed syntax: unterminated string"
  | c :: cs =>
    if c = '"' then .ok ([], cs)
    else if c = '\\' then
      match cs with
      | [] => .error "malformed syntax: unterminated escape"
      | e :: cs' =>
        match escChar e with
        | some ec =>
          match parseStringBody cs' with
          | .ok (chars, rest) => .ok (ec :: chars, rest)
          | .error msg => .error msg
        | none => .error "malformed syntax: bad escape"
    else
      match parseStringBody cs with
      | .ok (chars, rest) => .ok (c :: chars, rest)
      | .error msg => .error msg

/-- Consumes a maximal run of decimal digits, left fold into the accumulator. -/
def parseNatAux : List Char → Nat → Nat × List Char
  | [], acc => (acc, [])
  | c :: cs, acc =>
    if isDigitChar c then parseNatAux cs (acc * 10 + (c.toNat - 48)) else (acc, c :: cs)

mutual

/-- Fuel-driven recursive-descent parser for a JSON value. -/
def parseVal : Nat → List Char → Except String (Json × List Char)
  | 0, _ => .error "malformed syntax: input too deeply nested"
  | f + 1, cs =>
    match skipWs cs with
    | [] => .error "malformed syntax: unexpected end of input"
    | c :: rest =>
      if c = '"' then
        match parseStringBody rest with
        | .ok (chars, rest') => .ok (.str (String.mk chars), rest')
        | .error msg => .error msg
      else if c = '[' then
        match skipWs rest with
        | ']' :: rest' => .ok (.arr .nil, rest')
        | rest' =>
          match parseArrItems f rest' with
          | .ok (xs, rest'') => .ok (.arr xs, rest'')
          | .error msg => .error msg
      else if c = Char.ofNat 123 then
        match skipWs rest with
        | d :: rest' =>
          if d = Char.ofNat 125 then .ok (.obj .nil, rest')
          else
            match parseObjItems f (d :: rest') with
            | .ok (es, rest'') => .ok (.obj es, rest'')
            | .error msg => .error msg
        | [] => .error "malformed syntax: unterminated object"
      else if isDigitChar c then
        let p := parseNatAux (c :: rest) 0
        .ok (.num p.1, p.2)
      else
        match c :: rest with
        | 't' :: 'r' :: 'u' :: 'e' :: rest' => .ok (.bool true, rest')
        | 'f' :: 'a' :: 'l' :: 's' :: 'e' :: rest' => .ok (.bool false, rest')
        | 'n' :: 'u' :: 'l' :: 'l' :: rest' => .ok (.null, rest')
        | _ => .error "malformed syntax: unexpected character"

/-- Parses `value (,value)* ]` — the elements of a nonempty JSON array. -/
def parseArrItems : Nat → List Char → Except String (JArr × List Char)
  | 0, _ => .error "malformed syntax: input too deeply nested"
  | f + 1, cs =>
    match parseVal f cs with
    | .ok (v, rest) =>
      match skipWs rest with
      | ',' :: rest' =>
        match parseArrItems f rest' with
        | .ok (vs, rest'') => .ok (.cons v vs, rest'')
        | .error msg => .error msg
      | ']' :: rest' => .ok (.cons v .nil, rest')
      | _ => .error "malformed syntax: expected comma or closing bracket"
    | .error msg => .error msg

/-- Parses `"key":value (,"key":value)* and closing brace` — the entries of a
nonempty JSON object. -/
def parseObjItems : Nat → List Char → Except String (JObj × List Char)
  | 0, _ => .error "malformed syntax: input too deeply nested"
  | f + 1, cs =>
    match skipWs cs with
    | '"' :: rest =>
      match parseStringBody rest with
      | .ok (kchars, rest1) =>
        match skipWs rest1 with
        | ':' :: rest2 =>
          match parseVal f rest2 with
          | .ok (v, rest3) =>
            match skipWs rest3 with
            | ',' :: rest4 =>
              match parseObjItems f rest4 with
              | .ok (es, rest5) => .ok (.cons (String.mk kchars) v es, rest5)
              | .error msg => .error msg
            | d :: rest4 =>
              if d = Char.ofNat 125 then .ok (.cons (String.mk kchars) v .nil, rest4)
              else .error "malformed syntax: expected comma or closing brace"
            | [] => .error "malformed syntax: unterminated object"
          | .error msg => .error msg
        | _ => .error "malformed syntax: expected colon"
      | .error msg => .error msg
    | _ => .error "malformed syntax: expected object key"

end

/-- Top-level JSON parse: fuel is the input length plus one. -/
def parseJson (cs : List Char) : Except String (Json × List Char) :=
  parseVal (cs.length + 1) cs

mutual

/-- Modelled from the spec (section 3): the tagged `Schema` variant over Avro's
primitive and complex type kinds, with named-type back-references (`ref`)
standing for occurrences of a named type after its defining occurrence.
Mirrors the `apache_avro::schema::Schema` enum that the repository imports. -/
inductive Schema where
  | null
  | boolean
  | int
  | long
  | float
  | double
  | bytes
  | string
  | record (name : String) (fields : Fields)
  | enum (name : String) (symbols : List String)
  | array (items : Schema)
  | map (values : Schema)
  | union (alts : SchemaList)
  | fixed (name : String) (size : Nat)
  | ref (name : String)
deriving DecidableEq

/-- The ordered field list of a record: each field has a name and a schema
(defaults and aliases are decorative and excluded from the model, as the spec
excludes them from canonical form). -/
inductive Fields where
  | nil
  | cons (fname : String) (ftype : Schema) (tl : Fields)
deriving DecidableEq

/-- An ordered list of schemas (union alternatives). -/
inductive SchemaList where
  | nil
  | cons (hd : Schema) (tl : SchemaList)
deriving DecidableEq

end

/-- The primitive schema denoted by a type-name string, if any. -/
def primOfString (s : String) : Option Schema :=
  if s = "null" then some .null
  else if s = "boolean" then some .boolean
  else if s = "int" then some .int
  else if s = "long" then some .long
  else if s = "float" then some .float
  else if s = "double" then some .double
  else if s = "bytes" then some .bytes
  else if s = "string" then some .string
  else none

/-- The union-branch tag of a schema: the primitive kind keyword, the
fully-qualified name for named types and back-references, or the complex kind
keyword for arrays, maps and unions. -/
def schemaTag : Schema → String
  | .null => "null"
  | .boolean => "boolean"
  | .int => "int"
  | .long => "long"
  | .float => "float"
  | .double => "double"
  | .bytes => "bytes"
  | .string => "string"
  | .record n _ => n
  | .enum n _ => n
  | .array _ => "array"
  | .map _ => "map"
  | .union _ => "union"
  | .fixed n _ => n
  | .ref n => n

/-- Whether a schema is itself a union (unions may not immediately contain
unions). -/
def isUnion : Schema → Bool
  | .union _ => true
  | _ => false

/-- Pairwise distinctness of a list of strings. -/
def distinctStrings : List String → Bool
  | [] => true
  | t :: ts => !ts.contains t && distinctStrings ts

/-- The tags of a list of union alternatives. -/
def tagsOf : SchemaList → List String
  | .nil => []
  | .cons s ss => schemaTag s :: tagsOf ss

/-- Whether some union alternative is itself a union. -/
def hasUnionMember : SchemaList → Bool
  | .nil => false
  | .cons s ss => isUnion s || hasUnionMember ss

/-- First-match lookup of a key in a JSON object. -/
def jLookup : JObj → String → Option Json
  | .nil, _ => none
  | .cons k v es, key => if k = key then some v else jLookup es key

/-- All elements of a JSON array as strings, if they are all string literals
(the symbol list of an enum). -/
def stringElems : JArr → Option (List String)
  | .nil => some []
  | .cons (.str s) es =>
    match stringElems es with
    | some ss => some (s :: ss)
    | none => none
  | .cons _ _ => none

/-- Represents error types returned by the `avro` module
(`AvroError` in `src/avro_validation.rs`). -/
inductive AvroError where
  | InvalidSchema (reason : String)
  | InvalidRecords
deriving DecidableEq

mutual

/-- Modelled from the spec (section 4.1, `parse`): builds a `Schema` from a
JSON value, threading the environment of already-defined type names.  A bare
string is a primitive keyword or a back-reference to a defined name; an array
is a union whose alternatives must carry pairwise-distinct tags and must not
themselves be unions; an object dispatches on its `type` attribute, defining
`record`, `enum`, `array`, `map` and `fixed` schemas and registering the names
of named types, each of which must be defined at most once.  Unknown
attributes are ignored.  Fuel is structural; `jsonSize` of the input always
suffices. -/
def buildSchema : Nat → Json → List String → Except AvroError (Schema × List String)
  | 0, _, _ => .error (.InvalidSchema "malformed syntax: schema too deeply nested")
  | f + 1, j, env =>
    match j with
    | .str s =>
      match primOfString s with
      | some p => .ok (p, env)
      | none =>
        if env.contains s then .ok (.ref s, env)
        else .error (.InvalidSchema ("unknown type reference: " ++ s))
    | .arr xs =>
      match buildUnionAlts f xs env with
      | .ok (alts, env') =>
        if hasUnionMember alts then
          .error (.InvalidSchema "malformed syntax: union may not immediately contain a union")
        else if distinctStrings (tagsOf alts) then .ok (.union alts, env')
        else .error (.InvalidSchema "duplicate union branch tag")
      | .error e => .error e
    | .obj entries =>
      match jLookup entries "type" with
      | some (.str t) =>
        if t = "record" then
          match jLookup entries "name", jLookup entries "fields" with
          | some (.str n), some (.arr fs) =>
            if validName n then
              if env.contains n then
                .error (.InvalidSchema ("duplicate name definition: " ++ n))
              else
                match buildFieldList f fs (n :: env) with
                | .ok (flds, env') => .ok (.record n flds, env')
                | .error e => .error e
            else .error (.InvalidSchema ("malformed syntax: invalid name: " ++ n))
          | _, _ => .error (.InvalidSchema "malformed syntax: record requires name and fields")
        else if t = "enum" then
          match jLookup entries "name", jLookup entries "symbols" with
          | some (.str n), some (.arr syms) =>
            if validName n then
              if env.contains n then
                .error (.InvalidSchema ("duplicate name definition: " ++ n))
              else
                match stringElems syms with
                | some ss =>
                  if ss.all validName then .ok (.enum n ss, n :: env)
                  else .error (.InvalidSchema "malformed syntax: invalid enum symbol")
                | none => .error (.InvalidSchema "malformed syntax: enum symbols must be strings")
            else .error (.InvalidSchema ("malformed syntax: invalid name: " ++ n))
          | _, _ => .error (.InvalidSchema "malformed syntax: enum requires name and symbols")
        else if t = "array" then
          match jLookup entries "items" with
          | some ij =>
            match buildSchema f ij env with
            | .ok (it, env') => .ok (.array it, env')
            | .error e => .error e
          | none => .error (.InvalidSchema "malformed syntax: array requires items")
        else if t = "map" then
          match jLookup entries "values" with
          | some vj =>
            match buildSchema f vj env with
            | .ok (vt, env') => .ok (.map vt, env')
            | .error e => .error e
          | none => .error (.InvalidSchema "malformed syntax: map requires values")
        else if t = "fixed" then
          match jLookup entries "name", jLookup entries "size" with
          | some (.str n), some (.num sz) =>
            if validName n then
              if env.contains n then
                .error (.InvalidSchema ("duplicate name definition: " ++ n))
              else .ok (.fixed n sz, n :: env)
            else .error (.InvalidSchema ("malformed syntax: invalid name: " ++ n))
          | _, _ => .error (.InvalidSchema "malformed syntax: fixed requires name and size")
        else
          match primOfString t with
          | some p => .ok (p, env)
          | none =>
            if env.contains t then .ok (.ref t, env)
            else .error (.InvalidSchema ("unknown type reference: " ++ t))
      | _ => .error (.InvalidSchema "malformed syntax: missing type attribute")
    | _ => .error (.InvalidSchema "malformed syntax: schema must be a string, object, or array")

/-- Builds the alternatives of a union in declared order, threading the name
environment left to right. -/
def buildUnionAlts : Nat → JArr → List String → Except AvroError (SchemaList × List String)
  | 0, _, _ => .error (.InvalidSchema "malformed syntax: schema too deeply nested")
  | _ + 1, .nil, env => .ok (.nil, env)
  | f + 1, .cons j js, env =>
    match buildSchema f j env with
    | .ok (s, env') =>
      match buildUnionAlts f js env' with
      | .ok (ss, env'') => .ok (.cons s ss, env'')
      | .error e => .error e
    | .error e => .error e

/-- Builds the field list of a record in declared order: each field is an
object with a valid `name` and a `type` schema. -/
def buildFieldList : Nat → JArr → List String → Except AvroError (Fields × List String)
  | 0, _, _ => .error (.InvalidSchema "malformed syntax: schema too deeply nested")
  | _ + 1, .nil, env => .ok (.nil, env)
  | f + 1, .cons fj fjs, env =>
    match fj with
    | .obj fe =>
      match jLookup fe "name", jLookup fe "type" with
      | some (.str fn), some ftj =>
        if validName fn then
          match buildSchema f ftj env with
          | .ok (ft, env') =>
            match buildFieldList f fjs env' with
            | .ok (tl, env'') => .ok (.cons fn ft tl, env'')
            | .error e => .error e
          | .error e => .error e
        else .error (.InvalidSchema ("malformed syntax: invalid name: " ++ fn))
      | _, _ => .error (.InvalidSchema "malformed syntax: field requires name and type")
    | _ => .error (.InvalidSchema "malformed syntax: field must be an object")

end

/-- Modelled from the spec (section 4.1, `parse`): `Schema::parse_str` of the
`apache_avro` crate, which the repository calls but does not contain.  Parses
the text as JSON, requires the whole input to be consumed, and builds the
schema with an initially empty name environment. -/
def parse_str (raw_schema : String) : Except AvroError Schema :=
  match parseJson raw_schema.data with
  | .error msg => .error (.InvalidSchema msg)
  | .ok (j, rest) =>
    match skipWs rest with
    | [] =>
      match buildSchema (jsonSize j + 1) j [] with
      | .ok (s, _) => .ok s
      | .error e => .error e
    | _ => .error (.InvalidSchema "malformed syntax: trailing characters")

/-- The symbol list of an enum as a JSON array. -/
def symsToJson : List String → JArr
  | [] => .nil
  | s :: ss => .cons (.str s) (symsToJson ss)

mutual

/-- Modelled from the spec (sections 3 and 4.1, `canonicalize`): the Parsing
Canonical Form of a schema as a JSON value — only the attributes `type`,
`name`, `fields`, `symbols`, `items`, `values`, `size` survive, in that fixed
attribute order (with `name` first where present), names fully qualified,
back-references reduced to the bare name, and declared field/symbol/branch
order preserved. -/
def toJson : Schema → Json
  | .null => .str "null"
  | .boolean => .str "boolean"
  | .int => .str "int"
  | .long => .str "long"
  | .float => .str "float"
  | .double => .str "double"
  | .bytes => .str "bytes"
  | .string => .str "string"
  | .record n fs =>
    .obj (.cons "name" (.str n) (.cons "type" (.str "record")
      (.cons "fields" (.arr (fieldsToJson fs)) .nil)))
  | .enum n ss =>
    .obj (.cons "name" (.str n) (.cons "type" (.str "enum")
      (.cons "symbols" (.arr (symsToJson ss)) .nil)))
  | .array it => .obj (.cons "type" (.str "array") (.cons "items" (toJson it) .nil))
  | .map vt => .obj (.cons "type" (.str "map") (.cons "values" (toJson vt) .nil))
  | .union alts => .arr (altsToJson alts)
  | .fixed n sz =>
    .obj (.cons "name" (.str n) (.cons "type" (.str "fixed")
      (.cons "size" (.num sz) .nil)))
  | .ref n => .str n

/-- Canonical JSON of a record's field list, in declared order. -/
def fieldsToJson : Fields → JArr
  | .nil => .nil
  | .cons fn ft tl =>
    .cons (.obj (.cons "name" (.str fn) (.cons "type" (toJson ft) .nil))) (fieldsToJson tl)

/-- Canonical JSON of a union's alternatives, in declared order. -/
def altsToJson : SchemaList → JArr
  | .nil => .nil
  | .cons s ss => .cons (toJson s) (altsToJson ss)

end

/-- Modelled from the spec (section 4.1, `canonicalize`): the Parsing
Canonical Form of a schema as text (`Schema::canonical_form` of the
`apache_avro` crate). -/
def canonical_form (s : Schema) : String :=
  String.mk (printJson (toJson s))

/-- UTF-8 encoding of a single Unicode scalar value. -/
def utf8EncodeChar (c : Char) : List Nat :=
  let n := c.toNat
  if n < 128 then [n]
  else if n < 2048 then [192 + n / 64, 128 + n % 64]
  else if n < 65536 then [224 + n / 4096, 128 + (n / 64) % 64, 128 + n % 64]
  else [240 + n / 262144, 128 + (n / 4096) % 64, 128 + (n / 64) % 64, 128 + n % 64]

/-- UTF-8 encoding of a character list (Rust's `str::as_bytes`). -/
def utf8EncodeChars : List Char → List Nat
  | [] => []
  | c :: cs => utf8EncodeChar c ++ utf8EncodeChars cs

/-- UTF-8 encoding of a string. -/
def utf8Encode (s : String) : List Nat :=
  utf8EncodeChars s.data

/-- Whether a byte is a UTF-8 continuation byte. -/
def isContByte (b : Nat) : Bool :=
  128 ≤ b && b < 192

/-- Decodes one UTF-8 scalar value from a lead byte and the following bytes
(Rust's `str::from_utf8`, per scalar): rejects stray continuation bytes,
overlong encodings, surrogates and out-of-range values. -/
def utf8DecodeOne (b : Nat) (bs : List Nat) : Option (Char × List Nat) :=
  if b < 128 then some (Char.ofNat b, bs)
  else if b < 194 then none
  else if b < 224 then
    match bs with
    | b2 :: bs2 =>
      if isContByte b2 then some (Char.ofNat ((b - 192) * 64 + (b2 - 128)), bs2)
      else none
    | [] => none
  else if b < 240 then
    match bs with
    | b2 :: b3 :: bs2 =>
      if isContByte b2 && isContByte b3 then
        let n := (b - 224) * 4096 + (b2 - 128) * 64 + (b3 - 128)
        if 2048 ≤ n ∧ (n < 55296 ∨ 57344 ≤ n) then some (Char.ofNat n, bs2) else none
      else none
    | _ => none
  else if b < 245 then
    match bs with
    | b2 :: b3 :: b4 :: bs2 =>
      if isContByte b2 && isContByte b3 && isContByte b4 then
        let n := (b - 240) * 262144 + (b2 - 128) * 4096 + (b3 - 128) * 64 + (b4 - 128)
        if 65536 ≤ n ∧ n < 1114112 then some (Char.ofNat n, bs2) else none
      else none
    | _ => none
  else none

/-- Fuel-driven UTF-8 decoding loop: each step consumes at least the lead
byte, so fuel equal to the byte count always suffices. -/
def utf8DecodeAux : Nat → List Nat → Option (List Char)
  | _, [] => some []
  | 0, _ :: _ => none
  | f + 1, b :: bs =>
    match utf8DecodeOne b bs with
    | some (c, bs2) =>
      match utf8DecodeAux f bs2 with
      | some cs => some (c :: cs)
      | none => none
    | none => none

/-- UTF-8 decoding to a string. -/
def utf8Decode (bytes : List Nat) : Option String :=
  match utf8DecodeAux bytes.length bytes with
  | some cs => some (String.mk cs)
  | none => none

/-- `fingerprint_raw_schema` (`src/avro_validation.rs`, lines 34–39): parses
the raw text (propagating the parser's error via `?`) and pairs the parsed
schema with the UTF-8 bytes of its canonical form. -/
def fingerprint_raw_schema (raw_schema : String) : Except AvroError (Schema × List Nat) :=
  match parse_str raw_schema with
  | .ok schema_result => .ok (schema_result, utf8Encode (canonical_form schema_result))
  | .error e => .error e

/-- `fingerprint_raw_schema_list` (`src/avro_validation.rs`, lines 57–72):
maps `fingerprint_raw_schema` over the items (rayon's indexed parallel
iterator collects in input order), replacing a failed item by the pair
`(Schema::Null, bytes of the original raw text)`, and collects the pairs into
a pair of lists. -/
def fingerprint_raw_schema_list (raw_schema : List String) :
    Except AvroError (List Schema × List (List Nat)) :=
  .ok (raw_schema.map (fun r =>
    match fingerprint_raw_schema r with
    | .ok schema => schema
    | .error _ => (Schema.null, utf8Encode r))).unzip

/-- `translate_schema` (`src/avro_validation.rs`, lines 91–100): decodes the
serialized schema as UTF-8 and re-parses it; a UTF-8 decoding failure becomes
`InvalidSchema` and parsing is not attempted. -/
def translate_schema (serialized_schema : List Nat) : Except AvroError Schema :=
  match utf8Decode serialized_schema with
  | some schema_str => parse_str schema_str
  | none => .error (.InvalidSchema "invalid utf-8 sequence")

/-- `translate_schemas` (`src/avro_validation.rs`, lines 120–133): maps
`translate_schema` over the items in input order, replacing a failed item by
`Schema::Null`. -/
def translate_schemas (serialized_schema : List (List Nat)) :
    Except AvroError (List Schema) :=
  .ok (serialized_schema.map (fun o =>
    match translate_schema o with
    | .ok schema => schema
    | .error _ => Schema.null))

/-- Whether a schema is one of the eight primitive kinds. -/
def isPrimitive : Schema → Bool
  | .null | .boolean | .int | .long | .float | .double | .bytes | .string => true
  | _ => false

mutual

/-- Wellformedness of a schema relative to a name environment: the invariant
the parser establishes.  `SchemaOk env s env'` says `s` is fully resolved
when the names in `env` are already defined, and defines the names
`env' \ env`. -/
inductive SchemaOk : List String → Schema → List String → Prop where
  | prim (env : List String) (s : Schema) : isPrimitive s = true → SchemaOk env s env
  | ref (env : List String) (n : String) : primOfString n = none →
      env.contains n = true → SchemaOk env (.ref n) env
  | record (env : List String) (n : String) (fs : Fields) (env' : List String) :
      validName n = true → env.contains n = false →
      FieldsOk (n :: env) fs env' → SchemaOk env (.record n fs) env'
  | enum (env : List String) (n : String) (ss : List String) :
      validName n = true → env.contains n = false →
      ss.all validName = true → SchemaOk env (.enum n ss) (n :: env)
  | array (env : List String) (it : Schema) (env' : List String) :
      SchemaOk env it env' → SchemaOk env (.array it) env'
  | map (env : List String) (vt : Schema) (env' : List String) :
      SchemaOk env vt env' → SchemaOk env (.map vt) env'
  | union (env : List String) (alts : SchemaList) (env' : List String) :
      AltsOk env alts env' → hasUnionMember alts = false →
      distinctStrings (tagsOf alts) = true → SchemaOk env (.union alts) env'
  | fixed (env : List String) (n : String) (sz : Nat) :
      validName n = true → env.contains n = false →
      SchemaOk env (.fixed n sz) (n :: env)

/-- Wellformedness of a record's field list. -/
inductive FieldsOk : List String → Fields → List String → Prop where
  | nil (env : List String) : FieldsOk env .nil env
  | cons (env : List String) (fn : String) (ft : Schema) (tl : Fields)
      (env' env'' : List String) : validName fn = true → SchemaOk env ft env' →
      FieldsOk env' tl env'' → FieldsOk env (.cons fn ft tl) env''

/-- Wellformedness of a union's alternatives. -/
inductive AltsOk : List String → SchemaList → List String → Prop where
  | nil (env : List String) : AltsOk env .nil env
  | cons (env : List String) (s : Schema) (ss : SchemaList)
      (env' env'' : List String) : SchemaOk env s env' → AltsOk env' ss env'' →
      AltsOk env (.cons s ss) env''

end

/-- A string that prints into a JSON literal verbatim (no escapes needed). -/
def plainString (s : String) : Bool :=
  s.data.all nameChar

mutual

/-- JSON values whose strings (values and keys) are plain. -/
def goodJson : Json → Bool
  | .str s => plainString s
  | .num _ => true
  | .bool _ => true
  | .null => true
  | .arr xs => goodJArr xs
  | .obj es => goodJObj es

/-- All elements plain. -/
def goodJArr : JArr → Bool
  | .nil => true
  | .cons v vs => goodJson v && goodJArr vs

/-- All keys and values plain. -/
def goodJObj : JObj → Bool
  | .nil => true
  | .cons k v es => plainString k && goodJson v && goodJObj es

end

/-- Environments whose names are all valid. -/
def envOk (env : List String) : Prop :=
  ∀ x ∈ env, validName x = true

/-- Whether a character list does not begin with a decimal digit (the
continuation after a printed number). -/
def nonDigitStart : List Char → Bool
  | [] => true
  | c :: _ => !isDigitChar c

/-! ## Theorems -/

/-- A type-name string that denotes a primitive denotes a primitive schema. -/
theorem primOfString_isPrimitive {t : String} {p : Schema}
    (h : primOfString t = some p) : isPrimitive p = true := by
  unfold primOfString at h
  split_ifs at h <;> (injection h with h1) <;> (subst h1) <;> rfl

/-- Soundness of the schema builder: a successful build at any fuel yields a
wellformed schema over the given environment. -/
theorem build_sound (f : Nat) :
    (∀ j env s env', buildSchema f j env = .ok (s, env') → SchemaOk env s env') ∧
    (∀ xs env ss env', buildUnionAlts f xs env = .ok (ss, env') → AltsOk env ss env') ∧
    (∀ fs env fl env', buildFieldList f fs env = .ok (fl, env') → FieldsOk env fl env') := by
  induction f with
  | zero =>
    refine ⟨?_, ?_, ?_⟩ <;> intro a env s env' h <;>
      simp [buildSchema, buildUnionAlts, buildFieldList] at h
  | succ f ih =>
    obtain ⟨ihS, ihU, ihF⟩ := ih
    refine ⟨?_, ?_, ?_⟩
    · intro j env s env' h
      match j with
      | .str t =>
        simp only [buildSchema] at h
        split at h
        · rename_i hp
          cases h
          exact SchemaOk.prim env s (primOfString_isPrimitive hp)
        · rename_i hp
          split at h
          · rename_i hc
            cases h
            exact SchemaOk.ref env t hp hc
          · cases h
      | .num n => simp [buildSchema] at h
      | .bool b => simp [buildSchema] at h
      | .null => simp [buildSchema] at h
      | .arr xs =>
        simp only [buildSchema] at h
        split at h
        · rename_i alts env2 hu
          split at h
          · cases h
          · rename_i hm
            split at h
            · rename_i hd
              cases h
              exact SchemaOk.union env alts env' (ihU xs env alts env' hu)
                (by simpa using hm) hd
            · cases h
        · cases h
      | .obj entries =>
        simp only [buildSchema] at h
        split at h
        · rename_i t ht
          split at h
          -- t = "record"
          · rename_i hr
            subst hr
            split at h
            · rename_i n fs hn hf
              split at h
              · rename_i hv
                split at h
                · cases h
                · rename_i hc
                  split at h
                  · rename_i flds env2 hb
                    cases h
                    exact SchemaOk.record env n flds env' hv (by simpa using hc)
                      (ihF fs (n :: env) flds env' hb)
                  · cases h
              · cases h
            · cases h
          · rename_i hr
            split at h
            -- t = "enum"
            · rename_i he
              subst he
              split at h
              · rename_i n syms hn hf
                split at h
                · rename_i hv
                  split at h
                  · cases h
                  · rename_i hc
                    split at h
                    · rename_i ss hs
                      split at h
                      · rename_i ha
                        cases h
                        exact SchemaOk.enum env n ss hv (by simpa using hc) ha
                      · cases h
                    · cases h
                · cases h
              · cases h
            · rename_i he
              split at h
              -- t = "array"
              · rename_i hy
                subst hy
                split at h
                · rename_i ij hi
                  split at h
                  · rename_i it env2 hb
                    cases h
                    exact SchemaOk.array env it env' (ihS ij env it env' hb)
                  · cases h
                · cases h
              · rename_i hy
                split at h
                -- t = "map"
                · rename_i hmp
                  subst hmp
                  split at h
                  · rename_i vj hi
                    split at h
                    · rename_i vt env2 hb
                      cases h
                      exact SchemaOk.map env vt env' (ihS vj env vt env' hb)
                    · cases h
                  · cases h
                · rename_i hmp
                  split at h
                  -- t = "fixed"
                  · rename_i hx
                    subst hx
                    split at h
                    · rename_i n sz hn hsz
                      split at h
                      · rename_i hv
                        split at h
                        · cases h
                        · rename_i hc
                          cases h
                          exact SchemaOk.fixed env n sz hv (by simpa using hc)
                      · cases h
                    · cases h
                  -- primitive keyword or reference
                  · rename_i hx
                    split at h
                    · rename_i hp
                      cases h
                      exact SchemaOk.prim env s (primOfString_isPrimitive hp)
                    · rename_i hp
                      split at h
                      · rename_i hc
                        cases h
                        exact SchemaOk.ref env t hp hc
                      · cases h
        · cases h
    · intro xs env ss env' h
      match xs with
      | .nil =>
        simp only [buildUnionAlts] at h
        cases h
        exact AltsOk.nil env
      | .cons j js =>
        simp only [buildUnionAlts] at h
        split at h
        · rename_i s1 env2 hb
          split at h
          · rename_i ss2 env3 hu
            cases h
            exact AltsOk.cons env s1 ss2 env2 env' (ihS j env s1 env2 hb)
              (ihU js env2 ss2 env' hu)
          · cases h
        · cases h
    · intro fs env fl env' h
      match fs with
      | .nil =>
        simp only [buildFieldList] at h
        cases h
        exact FieldsOk.nil env
      | .cons fj fjs =>
        simp only [buildFieldList] at h
        split at h
        · rename_i fe
          split at h
          · rename_i fn ftj hn hf
            split at h
            · rename_i hv
              split at h
              · rename_i ft env2 hb
                split at h
                · rename_i tl env3 hl
                  cases h
                  exact FieldsOk.cons env fn ft tl env2 env' hv
                    (ihS ftj env ft env2 hb) (ihF fjs env2 tl env' hl)
                · cases h
              · cases h
            · cases h
          · cases h
        · cases h

/-- A successfully parsed schema is wellformed over the empty environment:
every back-reference resolves to a previously defined name. -/
theorem parse_str_sound {raw : String} {s : Schema}
    (h : parse_str raw = .ok s) : ∃ env', SchemaOk [] s env' := by
  unfold parse_str at h
  split at h
  · cases h
  · rename_i j rest hj
    split at h
    · split at h
      · rename_i s0 env2 hb
        cases h
        exact ⟨env2, (build_sound (jsonSize j + 1)).1 j [] s env2 hb⟩
      · cases h
    · cases h

/-- C9: `parse_str` is a standalone parse: on valid input it returns a fully
resolved schema (wellformed over the empty environment), and on invalid
input it fails with `InvalidSchema` carrying a reason distinguishing
malformed syntax, undefined type reference, duplicate name definition, and
duplicate union-branch tag, returning no partial result. -/
theorem parse_standalone_resolved_errors_distinguished :
    (∀ raw s, parse_str raw = .ok s → ∃ env', SchemaOk [] s env') ∧
    parse_str "not json at all" =
      .error (.InvalidSchema "malformed syntax: unexpected character") ∧
    parse_str "\"Missing\"" =
      .error (.InvalidSchema "unknown type reference: Missing") ∧
    parse_str "[\x7b\"type\":\"fixed\",\"name\":\"F\",\"size\":1\x7d,\x7b\"type\":\"fixed\",\"name\":\"F\",\"size\":2\x7d]" =
      .error (.InvalidSchema "duplicate name definition: F") ∧
    parse_str "[\"long\",\"long\"]" =
      .error (.InvalidSchema "duplicate union branch tag") ∧
    (["malformed syntax: unexpected character", "unknown type reference: Missing",
      "duplicate name definition: F", "duplicate union branch tag"] :
      List String).Nodup :=
  ⟨fun _ _ h => parse_str_sound h, rfl, rfl, rfl, rfl, by decide⟩

/-- Witness for C9: the schema text `"int"` parses to a wellformed schema. -/
theorem parse_standalone_resolved_errors_distinguished_witness :
    ∃ env', SchemaOk [] Schema.int env' :=
  parse_standalone_resolved_errors_distinguished.1 "\"int\"" Schema.int rfl

/-- C1: `fingerprint_raw_schema` is the composition of parse then
canonicalize: on valid schema text it returns the parsed `Schema` paired with
the UTF-8 bytes of its Parsing Canonical Form; on invalid text it returns the
parser's `InvalidSchema` error unchanged and produces no partial result. -/
theorem fingerprint_composes_parse_canonicalize (raw : String) :
    (∀ s, parse_str raw = .ok s →
      fingerprint_raw_schema raw = .ok (s, utf8Encode (canonical_form s))) ∧
    (∀ e, parse_str raw = .error e → fingerprint_raw_schema raw = .error e) := by
  constructor <;> intro x h <;> simp [fingerprint_raw_schema, h]

/-- Witness for C1 at a valid and at an invalid input. -/
theorem fingerprint_composes_parse_canonicalize_witness :
    fingerprint_raw_schema "\"int\"" =
      .ok (.int, utf8Encode (canonical_form .int)) ∧
    fingerprint_raw_schema "nope" =
      .error (.InvalidSchema "malformed syntax: unexpected character") :=
  ⟨(fingerprint_composes_parse_canonicalize "\"int\"").1 Schema.int rfl,
   (fingerprint_composes_parse_canonicalize "nope").2
     (.InvalidSchema "malformed syntax: unexpected character") rfl⟩

/-- C3: canonicalization is deterministic: `fingerprint_raw_schema` on the
same valid text always returns the same pair, and the canonical bytes are a
pure function of the `Schema` value. -/
theorem canonicalization_deterministic (S : String) (s : Schema)
    (h : parse_str S = .ok s) :
    fingerprint_raw_schema S = fingerprint_raw_schema S ∧
    fingerprint_raw_schema S = .ok (s, utf8Encode (canonical_form s)) ∧
    (∀ s' : Schema, s' = s → canonical_form s' = canonical_form s) := by
  refine ⟨rfl, ?_, ?_⟩
  · simp [fingerprint_raw_schema, h]
  · intro s' hs
    rw [hs]

/-- Witness for C3 at the primitive schema text `"int"`. -/
theorem canonicalization_deterministic_witness :
    fingerprint_raw_schema "\"int\"" = fingerprint_raw_schema "\"int\"" ∧
    fingerprint_raw_schema "\"int\"" =
      .ok (Schema.int, utf8Encode (canonical_form Schema.int)) ∧
    (∀ s' : Schema, s' = Schema.int → canonical_form s' = canonical_form Schema.int) :=
  canonicalization_deterministic "\"int\"" Schema.int rfl

/-- C6: `translate_schema` decodes its input as UTF-8 and re-parses the text;
on bytes that are not valid UTF-8 it fails with `InvalidSchema` and parsing
is not attempted. -/
theorem translate_decodes_then_parses :
    (∀ bytes str, utf8Decode bytes = some str →
      translate_schema bytes = parse_str str) ∧
    (∀ bytes, utf8Decode bytes = none →
      translate_schema bytes = .error (.InvalidSchema "invalid utf-8 sequence")) := by
  constructor
  · intro bytes str h
    simp [translate_schema, h]
  · intro bytes h
    simp [translate_schema, h]

/-- Witness for C6: valid UTF-8 bytes of `"int"` are re-parsed; the stray
continuation byte 255 is rejected as `InvalidSchema`. -/
theorem translate_decodes_then_parses_witness :
    translate_schema [34, 105, 110, 116, 34] = parse_str "\"int\"" ∧
    translate_schema [255] = .error (.InvalidSchema "invalid utf-8 sequence") :=
  ⟨translate_decodes_then_parses.1 [34, 105, 110, 116, 34] "\"int\"" rfl,
   translate_decodes_then_parses.2 [255] rfl⟩

/-- C7: a union with two anonymous `int` branches is rejected with
`InvalidSchema`, while a union mixing `int` and a named record parses
successfully. -/
theorem union_duplicate_rejected_mixed_accepted :
    parse_str "[\"int\",\"int\"]" =
      .error (.InvalidSchema "duplicate union branch tag") ∧
    parse_str "[\"int\",\x7b\"type\":\"record\",\"name\":\"Rec\",\"fields\":[\x7b\"name\":\"f\",\"type\":\"long\"\x7d]\x7d]" =
      .ok (.union (.cons .int (.cons (.record "Rec" (.cons "f" .long .nil)) .nil))) :=
  ⟨rfl, rfl⟩

/-- C8: canonicalization is order-sensitive in record fields: swapping the
two field declarations of a record yields a valid schema whose canonical
bytes differ from the original's. -/
theorem field_order_changes_canonical_bytes :
    parse_str "\x7b\"type\":\"record\",\"name\":\"R\",\"fields\":[\x7b\"name\":\"a\",\"type\":\"int\"\x7d,\x7b\"name\":\"b\",\"type\":\"string\"\x7d]\x7d" =
      .ok (.record "R" (.cons "a" .int (.cons "b" .string .nil))) ∧
    parse_str "\x7b\"type\":\"record\",\"name\":\"R\",\"fields\":[\x7b\"name\":\"b\",\"type\":\"string\"\x7d,\x7b\"name\":\"a\",\"type\":\"int\"\x7d]\x7d" =
      .ok (.record "R" (.cons "b" .string (.cons "a" .int .nil))) ∧
    utf8Encode (canonical_form (.record "R" (.cons "a" .int (.cons "b" .string .nil)))) ≠
      utf8Encode (canonical_form (.record "R" (.cons "b" .string (.cons "a" .int .nil)))) :=
  ⟨rfl, rfl, by decide⟩

/-- C2: `fingerprint_raw_schema_list` never fails as a whole: it returns an
output of exactly the input's length in which position `i` holds the result
of `fingerprint_raw_schema` on input `i` when that succeeds, and the
placeholder pair `(Schema.null, bytes of the original raw text)` when it
fails. -/
theorem fingerprint_list_infallible_pointwise (raws : List String) :
    ∃ out, fingerprint_raw_schema_list raws = .ok out ∧
      out.1.length = raws.length ∧ out.2.length = raws.length ∧
      ∀ i (hi : i < raws.length) (hs : i < out.1.length) (hb : i < out.2.length),
        (∀ s b, fingerprint_raw_schema (raws.get ⟨i, hi⟩) = .ok (s, b) →
          out.1.get ⟨i, hs⟩ = s ∧ out.2.get ⟨i, hb⟩ = b) ∧
        (∀ e, fingerprint_raw_schema (raws.get ⟨i, hi⟩) = .error e →
          out.1.get ⟨i, hs⟩ = Schema.null ∧
          out.2.get ⟨i, hb⟩ = utf8Encode (raws.get ⟨i, hi⟩)) := by
  refine ⟨_, rfl, ?_, ?_, ?_⟩
  · simp [List.unzip_eq_map]
  · simp [List.unzip_eq_map]
  · intro i hi hs hb
    constructor
    · intro s b h
      rw [List.get_eq_getElem] at h
      constructor <;>
        simp [List.unzip_eq_map, List.get_eq_getElem, List.getElem_map, h]
    · intro e h
      rw [List.get_eq_getElem] at h
      constructor <;>
        simp [List.unzip_eq_map, List.get_eq_getElem, List.getElem_map, h]

/-- Witness for C2 on a batch of one valid and one invalid schema text. -/
theorem fingerprint_list_infallible_pointwise_witness :
    ∃ out, fingerprint_raw_schema_list ["\"int\"", "nope"] = .ok out ∧
      out.1.length = 2 ∧ out.2.length = 2 ∧
      out.1 = [Schema.int, Schema.null] := by
  obtain ⟨out, h1, h2, h3, h4⟩ := fingerprint_list_infallible_pointwise ["\"int\"", "nope"]
  have hc : fingerprint_raw_schema_list ["\"int\"", "nope"] =
      .ok ([Schema.int, Schema.null],
           [utf8Encode (canonical_form Schema.int), utf8Encode "nope"]) := rfl
  rw [h1] at hc
  have hout : out = ([Schema.int, Schema.null],
      [utf8Encode (canonical_form Schema.int), utf8Encode "nope"]) := by
    exact Except.ok.inj hc
  exact ⟨out, h1, h2, h3, by rw [hout]⟩

/-- C5: `translate_schemas` never fails as a whole: it returns a list of
schemas of exactly the input's length and order, where position `i` holds the
result of `translate_schema` on input `i` when that succeeds and the
`Schema.null` placeholder when it fails. -/
theorem translate_list_infallible_pointwise (serialized : List (List Nat)) :
    ∃ out, translate_schemas serialized = .ok out ∧
      out.length = serialized.length ∧
      ∀ i (hi : i < serialized.length) (ho : i < out.length),
        (∀ s, translate_schema (serialized.get ⟨i, hi⟩) = .ok s →
          out.get ⟨i, ho⟩ = s) ∧
        (∀ e, translate_schema (serialized.get ⟨i, hi⟩) = .error e →
          out.get ⟨i, ho⟩ = Schema.null) := by
  refine ⟨_, rfl, ?_, ?_⟩
  · simp
  · intro i hi ho
    constructor
    · intro s h
      rw [List.get_eq_getElem] at h
      simp [List.get_eq_getElem, List.getElem_map, h]
    · intro e h
      rw [List.get_eq_getElem] at h
      simp [List.get_eq_getElem, List.getElem_map, h]

/-- Witness for C5 on a batch of one decodable and one undecodable item. -/
theorem translate_list_infallible_pointwise_witness :
    ∃ out, translate_schemas [[34, 105, 110, 116, 34], [255]] = .ok out ∧
      out.length = 2 ∧ out = [Schema.int, Schema.null] := by
  obtain ⟨out, h1, h2, h3⟩ :=
    translate_list_infallible_pointwise [[34, 105, 110, 116, 34], [255]]
  have hc : translate_schemas [[34, 105, 110, 116, 34], [255]] =
      .ok [Schema.int, Schema.null] := rfl
  rw [h1] at hc
  exact ⟨out, h1, h2, Except.ok.inj hc⟩

theorem validName_plain {s : String} (h : validName s = true) : plainString s = true := by
  unfold validName at h
  rw [Bool.and_eq_true] at h
  exact h.2

theorem envOk_contains {env : List String} {n : String}
    (he : envOk env) (hc : env.contains n = true) : validName n = true :=
  he n (List.elem_iff.mp hc)

theorem envOk_cons {env : List String} {n : String}
    (he : envOk env) (hv : validName n = true) : envOk (n :: env) := by
  intro x hx
  cases hx with
  | head => exact hv
  | tail _ h => exact he x h

theorem symsToJson_good {ss : List String} (h : ss.all validName = true) :
    goodJArr (symsToJson ss) = true := by
  induction ss with
  | nil => rfl
  | cons s tl ih =>
    simp only [List.all_cons, Bool.and_eq_true] at h
    simp [symsToJson, goodJArr, goodJson, validName_plain h.1, ih h.2]

theorem toJson_good_aux (N : Nat) :
    (∀ s env env', jsonSize (toJson s) ≤ N → SchemaOk env s env' → envOk env →
      goodJson (toJson s) = true ∧ envOk env') ∧
    (∀ fs env env', jsonSizeA (fieldsToJson fs) ≤ N → FieldsOk env fs env' → envOk env →
      goodJArr (fieldsToJson fs) = true ∧ envOk env') ∧
    (∀ alts env env', jsonSizeA (altsToJson alts) ≤ N → AltsOk env alts env' → envOk env →
      goodJArr (altsToJson alts) = true ∧ envOk env') := by
  induction N using Nat.strong_induction_on with
  | _ N ih =>
    refine ⟨?_, ?_, ?_⟩
    · intro s env env' hsz hok he
      cases hok with
      | prim _ _ hp =>
        cases s <;> simp [isPrimitive] at hp <;> exact ⟨by decide, he⟩
      | ref _ n hp hc =>
        exact ⟨validName_plain (envOk_contains he hc), he⟩
      | record _ n fs _ hv hc hfs =>
        simp only [toJson, jsonSize, jsonSizeO] at hsz
        have hlt : jsonSizeA (fieldsToJson fs) < N := by omega
        have hfld := ((ih _ hlt).2.1) fs (n :: env) env' (by omega) hfs
          (envOk_cons he hv)
        refine ⟨?_, hfld.2⟩
        simp [toJson, goodJson, goodJObj, validName_plain hv, hfld.1]; decide
      | enum _ n ss hv hc hall =>
        refine ⟨?_, envOk_cons he hv⟩
        simp [toJson, goodJson, goodJObj, validName_plain hv, symsToJson_good hall]
        decide
      | array _ it _ hit =>
        simp only [toJson, jsonSize, jsonSizeO] at hsz
        have hlt : jsonSize (toJson it) < N := by omega
        have h1 := ((ih _ hlt).1) it env env' (by omega) hit he
        refine ⟨?_, h1.2⟩
        simp [toJson, goodJson, goodJObj, h1.1]; decide
      | map _ vt _ hvt =>
        simp only [toJson, jsonSize, jsonSizeO] at hsz
        have hlt : jsonSize (toJson vt) < N := by omega
        have h1 := ((ih _ hlt).1) vt env env' (by omega) hvt he
        refine ⟨?_, h1.2⟩
        simp [toJson, goodJson, goodJObj, h1.1]; decide
      | union _ alts _ halts hm hd =>
        simp only [toJson, jsonSize] at hsz
        have hlt : jsonSizeA (altsToJson alts) < N := by omega
        have h1 := ((ih _ hlt).2.2) alts env env' (by omega) halts he
        exact ⟨by simp [toJson, goodJson, h1.1], h1.2⟩
      | fixed _ n sz hv hc =>
        refine ⟨?_, envOk_cons he hv⟩
        simp [toJson, goodJson, goodJObj, validName_plain hv]; decide
    · intro fs env env' hsz hok he
      cases hok with
      | nil _ => exact ⟨rfl, he⟩
      | cons _ fn ft tl env2 _ hv hft htl =>
        simp only [fieldsToJson, jsonSizeA, jsonSize, jsonSizeO] at hsz
        have hlt1 : jsonSize (toJson ft) < N := by omega
        have hlt2 : jsonSizeA (fieldsToJson tl) < N := by omega
        have h1 := ((ih _ hlt1).1) ft env env2 (by omega) hft he
        have h2 := ((ih _ hlt2).2.1) tl env2 env' (by omega) htl h1.2
        refine ⟨?_, h2.2⟩
        simp [fieldsToJson, goodJArr, goodJson, goodJObj, validName_plain hv,
          h1.1, h2.1]; decide
    · intro alts env env' hsz hok he
      cases hok with
      | nil _ => exact ⟨rfl, he⟩
      | cons _ s1 ss env2 _ hs1 hss =>
        simp only [altsToJson, jsonSizeA] at hsz
        have hlt1 : jsonSize (toJson s1) < N := by omega
        have hlt2 : jsonSizeA (altsToJson ss) < N := by omega
        have h1 := ((ih _ hlt1).1) s1 env env2 (by omega) hs1 he
        have h2 := ((ih _ hlt2).2.2) ss env2 env' (by omega) hss h1.2
        exact ⟨by simp [altsToJson, goodJArr, h1.1, h2.1], h2.2⟩

theorem char_ofNat_toNat {n : Nat} (h : n.isValidChar) : (Char.ofNat n).toNat = n := by
  unfold Char.ofNat
  rw [dif_pos h]
  rfl

theorem char_ofNat_of_toNat (c : Char) : Char.ofNat c.toNat = c := by
  have hv : c.toNat.isValidChar := c.valid
  apply Char.eq_of_val_eq
  apply UInt32.toNat.inj
  show (Char.ofNat c.toNat).toNat = c.toNat
  exact char_ofNat_toNat hv

theorem nameChar_ascii {c : Char} (h : nameChar c = true) : c.toNat < 128 := by
  unfold nameChar at h
  rcases Bool.or_eq_true _ _ |>.mp h with h1 | h2
  · rcases Bool.or_eq_true _ _ |>.mp h1 with h3 | h4
    · unfold Char.isAlphanum at h3
      rcases Bool.or_eq_true _ _ |>.mp h3 with h5 | h6
      · unfold Char.isAlpha at h5
        rcases Bool.or_eq_true _ _ |>.mp h5 with h7 | h8
        · unfold Char.isUpper at h7
          rw [Bool.and_eq_true] at h7
          have := h7.2
          rw [decide_eq_true_eq] at this
          have h9 : c.val ≤ 90 := this
          exact Nat.lt_of_le_of_lt (UInt32.le_def.mp h9) (by decide)
        · unfold Char.isLower at h8
          rw [Bool.and_eq_true] at h8
          have := h8.2
          rw [decide_eq_true_eq] at this
          exact Nat.lt_of_le_of_lt (UInt32.le_def.mp this) (by decide)
      · unfold Char.isDigit at h6
        rw [Bool.and_eq_true] at h6
        have := h6.2
        rw [decide_eq_true_eq] at this
        exact Nat.lt_of_le_of_lt (UInt32.le_def.mp this) (by decide)
    · rw [decide_eq_true_eq] at h4
      subst h4
      decide
  · rw [decide_eq_true_eq] at h2
    subst h2
    decide

theorem jsonSize_pos (j : Json) : 1 ≤ jsonSize j := by
  cases j <;> simp [jsonSize]

theorem digitChar_ascii {k : Nat} (hk : k < 10) : (digitChar k).toNat < 128 := by
  unfold digitChar
  rw [char_ofNat_toNat (Or.inl (by omega))]
  omega

theorem natCharsAux_ascii (f : Nat) :
    ∀ n c, c ∈ natCharsAux f n → c.toNat < 128 := by
  induction f with
  | zero => intro n c hc; simp [natCharsAux] at hc
  | succ f ih =>
    intro n c hc
    unfold natCharsAux at hc
    split at hc
    · rename_i hn
      simp at hc
      subst hc
      exact digitChar_ascii hn
    · rename_i hn
      rw [List.mem_append] at hc
      rcases hc with hc | hc
      · exact ih (n / 10) c hc
      · simp at hc
        subst hc
        have h10 : (0 : Nat) < 10 := by decide
        exact digitChar_ascii (Nat.mod_lt _ h10)

theorem printString_ascii {s : String} (hs : plainString s = true) :
    ∀ c ∈ printString s, c.toNat < 128 := by
  intro c hc
  unfold printString at hc
  simp only [List.mem_cons, List.mem_append, List.not_mem_nil, or_false] at hc
  rcases hc with (rfl | hc) | rfl
  · decide
  · exact nameChar_ascii (List.all_eq_true.mp hs c hc)
  · decide

theorem printAscii_aux (N : Nat) :
    (∀ j, jsonSize j ≤ N → goodJson j = true → ∀ c ∈ printJson j, c.toNat < 128) ∧
    (∀ xs, jsonSizeA xs ≤ N → goodJArr xs = true → ∀ c ∈ printArr xs, c.toNat < 128) ∧
    (∀ xs, jsonSizeA xs ≤ N → goodJArr xs = true → ∀ c ∈ printArrTail xs, c.toNat < 128) ∧
    (∀ es, jsonSizeO es ≤ N → goodJObj es = true → ∀ c ∈ printObj es, c.toNat < 128) ∧
    (∀ es, jsonSizeO es ≤ N → goodJObj es = true → ∀ c ∈ printObjTail es, c.toNat < 128) := by
  induction N using Nat.strong_induction_on with
  | _ N ih =>
    have harr : ∀ xs, jsonSizeA xs ≤ N → goodJArr xs = true →
        (∀ c ∈ printArr xs, c.toNat < 128) ∧ (∀ c ∈ printArrTail xs, c.toNat < 128) := by
      intro xs hsz hg
      cases xs with
      | nil => constructor <;> (intro c hc; simp [printArr, printArrTail] at hc; subst hc; decide)
      | cons v vs =>
        simp only [jsonSizeA] at hsz
        simp only [goodJArr, Bool.and_eq_true] at hg
        have hv : ∀ c ∈ printJson v, c.toNat < 128 := by
          intro c hc
          have hlt : jsonSize v < N := by omega
          exact ((ih _ hlt).1) v (by omega) hg.1 c hc
        have hvs : (∀ c ∈ printArr vs, c.toNat < 128) ∧
            (∀ c ∈ printArrTail vs, c.toNat < 128) := by
          have hlt : jsonSizeA vs < N := by
            have := jsonSize_pos v
            omega
          exact ⟨((ih _ hlt).2.1) vs (by omega) hg.2, ((ih _ hlt).2.2.1) vs (by omega) hg.2⟩
        constructor
        · intro c hc
          simp only [printArr, List.mem_append] at hc
          rcases hc with hc | hc
          · exact hv c hc
          · exact hvs.2 c hc
        · intro c hc
          simp only [printArrTail, List.mem_cons, List.mem_append] at hc
          rcases hc with hc | hc | hc
          · subst hc; decide
          · exact hv c hc
          · exact hvs.2 c hc
    have hobj : ∀ es, jsonSizeO es ≤ N → goodJObj es = true →
        (∀ c ∈ printObj es, c.toNat < 128) ∧ (∀ c ∈ printObjTail es, c.toNat < 128) := by
      intro es hsz hg
      cases es with
      | nil => constructor <;> (intro c hc; simp [printObj, printObjTail] at hc; subst hc; decide)
      | cons k v tl =>
        simp only [jsonSizeO] at hsz
        simp only [goodJObj, Bool.and_eq_true] at hg
        have hk : ∀ c ∈ printString k, c.toNat < 128 := printString_ascii hg.1.1
        have hv : ∀ c ∈ printJson v, c.toNat < 128 := by
          intro c hc
          have hlt : jsonSize v < N := by omega
          exact ((ih _ hlt).1) v (by omega) hg.1.2 c hc
        have htl : ∀ c ∈ printObjTail tl, c.toNat < 128 := by
          have := jsonSize_pos v
          have hlt : jsonSizeO tl < N := by omega
          exact ((ih _ hlt).2.2.2.2) tl (by omega) hg.2
        constructor
        · intro c hc
          simp only [printObj, List.mem_append, List.mem_cons] at hc
          rcases hc with hc | hc | hc | hc
          · exact hk c hc
          · subst hc; decide
          · exact hv c hc
          · exact htl c hc
        · intro c hc
          simp only [printObjTail, List.mem_cons, List.mem_append] at hc
          rcases hc with hc | hc | hc | hc | hc
          · subst hc; decide
          · exact hk c hc
          · subst hc; decide
          · exact hv c hc
          · exact htl c hc
    refine ⟨?_, fun xs h hg => (harr xs h hg).1, fun xs h hg => (harr xs h hg).2,
      fun es h hg => (hobj es h hg).1, fun es h hg => (hobj es h hg).2⟩
    intro j hsz hg c hc
    match j with
    | .str s => exact printString_ascii hg c hc
    | .num n => exact natCharsAux_ascii (n + 1) n c hc
    | .bool b =>
      cases b <;> simp [printJson] at hc <;> rcases hc with rfl | rfl | rfl | rfl | rfl <;> decide
    | .null =>
      simp [printJson] at hc
      rcases hc with rfl | rfl | rfl | rfl <;> decide
    | .arr xs =>
      simp only [printJson, List.mem_cons] at hc
      rcases hc with hc | hc
      · subst hc; decide
      · simp only [jsonSize] at hsz
        exact (harr xs (by omega) hg).1 c hc
    | .obj es =>
      simp only [printJson, List.mem_cons] at hc
      rcases hc with hc | hc
      · subst hc; decide
      · simp only [jsonSize] at hsz
        exact (hobj es (by omega) hg).1 c hc

theorem utf8EncodeChars_length (cs : List Char) :
    cs.length ≤ (utf8EncodeChars cs).length := by
  induction cs with
  | nil => simp [utf8EncodeChars]
  | cons c tl ih =>
    show (c :: tl).length ≤ (utf8EncodeChar c ++ utf8EncodeChars tl).length
    rw [List.length_append, List.length_cons]
    have h1 : 1 ≤ (utf8EncodeChar c).length := by
      unfold utf8EncodeChar
      dsimp only
      split_ifs <;> simp
    omega

theorem utf8_ascii_roundtrip :
    ∀ cs : List Char, ∀ f : Nat, (∀ c ∈ cs, c.toNat < 128) → cs.length ≤ f →
      utf8DecodeAux f (utf8EncodeChars cs) = some cs := by
  intro cs
  induction cs with
  | nil => intro f _ _; cases f <;> rfl
  | cons c tl ih =>
    intro f h hf
    have hc : c.toNat < 128 := h c (List.mem_cons_self c tl)
    match f with
    | f + 1 =>
      show utf8DecodeAux (f + 1) (utf8EncodeChar c ++ utf8EncodeChars tl) = some (c :: tl)
      unfold utf8EncodeChar
      rw [if_pos hc]
      show utf8DecodeAux (f + 1) (c.toNat :: utf8EncodeChars tl) = some (c :: tl)
      have hstep : utf8DecodeOne c.toNat (utf8EncodeChars tl) =
          some (c, utf8EncodeChars tl) := by
        unfold utf8DecodeOne
        rw [if_pos hc, char_ofNat_of_toNat]
      rw [utf8DecodeAux, hstep]
      dsimp only
      rw [ih f (fun x hx => h x (List.mem_cons_of_mem c hx)) (by simpa using hf)]

theorem envOk_nil : envOk [] :=
  fun x hx => absurd hx (List.not_mem_nil x)

theorem canonical_ascii {s : Schema} {env env' : List String}
    (hok : SchemaOk env s env') (he : envOk env) :
    ∀ c ∈ (canonical_form s).data, c.toNat < 128 := by
  have hg := ((toJson_good_aux (jsonSize (toJson s))).1) s env env' (Nat.le_refl _) hok he
  intro c hc
  exact ((printAscii_aux (jsonSize (toJson s))).1) (toJson s) (Nat.le_refl _) hg.1 c hc

theorem utf8Decode_canonical {s : Schema} {env env' : List String}
    (hok : SchemaOk env s env') (he : envOk env) :
    utf8Decode (utf8Encode (canonical_form s)) = some (canonical_form s) := by
  unfold utf8Decode utf8Encode
  rw [utf8_ascii_roundtrip (canonical_form s).data
    (utf8EncodeChars (canonical_form s).data).length (canonical_ascii hok he)
    (utf8EncodeChars_length (canonical_form s).data)]

/-- C10: the canonical bytes of a successful `fingerprint_raw_schema` are the
UTF-8 encoding of the canonical-form string, so the UTF-8 decoding step inside
`translate_schema` succeeds on them and its non-UTF-8 error branch is
unreachable on such input. -/
theorem fingerprint_bytes_utf8_decodable (raw : String) (s : Schema) (bytes : List Nat)
    (h : fingerprint_raw_schema raw = .ok (s, bytes)) :
    bytes = utf8Encode (canonical_form s) ∧
    utf8Decode bytes = some (canonical_form s) ∧
    translate_schema bytes = parse_str (canonical_form s) := by
  unfold fingerprint_raw_schema at h
  split at h
  · rename_i s0 hp
    cases h
    obtain ⟨env', hok⟩ := parse_str_sound hp
    have hdec := utf8Decode_canonical hok envOk_nil
    refine ⟨rfl, hdec, ?_⟩
    unfold translate_schema
    rw [hdec]
  · cases h

/-- Witness for C10 at the schema text `"int"`. -/
theorem fingerprint_bytes_utf8_decodable_witness :
    utf8Encode (canonical_form Schema.int) = utf8Encode (canonical_form Schema.int) ∧
    utf8Decode (utf8Encode (canonical_form Schema.int)) = some (canonical_form Schema.int) ∧
    translate_schema (utf8Encode (canonical_form Schema.int)) =
      parse_str (canonical_form Schema.int) :=
  fingerprint_bytes_utf8_decodable "\"int\"" Schema.int
    (utf8Encode (canonical_form Schema.int)) rfl

theorem string_mk_data (s : String) : String.mk s.data = s := rfl

theorem skipWs_cons {c : Char} {l : List Char} (h : isWs c = false) :
    skipWs (c :: l) = c :: l := by
  unfold skipWs
  rw [h]
  rfl

theorem nameChar_ne_quote {c : Char} (h : nameChar c = true) : ¬(c = '"') := by
  intro he
  subst he
  revert h
  decide

theorem nameChar_ne_backslash {c : Char} (h : nameChar c = true) : ¬(c = '\\') := by
  intro he
  subst he
  revert h
  decide

theorem parseStringBody_plain :
    ∀ (l : List Char) (rest : List Char), (∀ c ∈ l, nameChar c = true) →
      parseStringBody (l ++ '"' :: rest) = .ok (l, rest) := by
  intro l
  induction l with
  | nil =>
    intro rest _
    show parseStringBody ('"' :: rest) = .ok ([], rest)
    unfold parseStringBody
    rw [if_pos rfl]
  | cons c cs ih =>
    intro rest h
    have hc : nameChar c = true := h c (List.mem_cons_self c cs)
    show parseStringBody (c :: (cs ++ '"' :: rest)) = .ok (c :: cs, rest)
    unfold parseStringBody
    rw [if_neg (nameChar_ne_quote hc), if_neg (nameChar_ne_backslash hc),
      ih rest (fun x hx => h x (List.mem_cons_of_mem c hx))]

theorem digitChar_isDigit {k : Nat} (hk : k < 10) : isDigitChar (digitChar k) = true := by
  interval_cases k <;> decide

theorem digitChar_sub (k : Nat) (hk : k < 10) : (digitChar k).toNat - 48 = k := by
  interval_cases k <;> decide

theorem natCharsAux_digits (f : Nat) :
    ∀ n, n ≤ f → (natCharsAux (f + 1) n ≠ [] ∧
      ∀ c ∈ natCharsAux (f + 1) n, isDigitChar c = true) := by
  induction f with
  | zero =>
    intro n hn
    interval_cases n
    exact ⟨by decide, by decide⟩
  | succ f ih =>
    intro n hn
    by_cases h10 : n < 10
    · constructor
      · show natCharsAux (f + 2) n ≠ []
        unfold natCharsAux
        rw [if_pos h10]
        simp
      · intro c hc
        unfold natCharsAux at hc
        rw [if_pos h10] at hc
        simp at hc
        subst hc
        exact digitChar_isDigit h10
    · have hrec : natCharsAux (f + 2) n =
          natCharsAux (f + 1) (n / 10) ++ [digitChar (n % 10)] := by
        show (if n < 10 then [digitChar n]
          else natCharsAux (f + 1) (n / 10) ++ [digitChar (n % 10)]) = _
        rw [if_neg h10]
      have hdiv : n / 10 ≤ f := by
        have : n / 10 < n := Nat.div_lt_self (by omega) (by decide)
        omega
      constructor
      · rw [hrec]
        simp
      · intro c hc
        rw [hrec, List.mem_append] at hc
        rcases hc with hc | hc
        · exact (ih (n / 10) hdiv).2 c hc
        · simp at hc
          subst hc
          have h10' : (0 : Nat) < 10 := by decide
          exact digitChar_isDigit (Nat.mod_lt _ h10')

theorem parseNatAux_cons_digit {c : Char} (hc : isDigitChar c = true)
    (cs : List Char) (acc : Nat) :
    parseNatAux (c :: cs) acc = parseNatAux cs (acc * 10 + (c.toNat - 48)) := by
  show (if isDigitChar c = true then parseNatAux cs (acc * 10 + (c.toNat - 48))
    else (acc, c :: cs)) = parseNatAux cs (acc * 10 + (c.toNat - 48))
  rw [hc]
  simp

theorem parseNatAux_digits :
    ∀ (ds rest : List Char) (acc : Nat), (∀ c ∈ ds, isDigitChar c = true) →
      parseNatAux (ds ++ rest) acc =
        parseNatAux rest (ds.foldl (fun a c => a * 10 + (c.toNat - 48)) acc) := by
  intro ds
  induction ds with
  | nil => intro rest acc _; rfl
  | cons c cs ih =>
    intro rest acc h
    have hc : isDigitChar c = true := h c (List.mem_cons_self c cs)
    show parseNatAux (c :: (cs ++ rest)) acc = _
    rw [parseNatAux_cons_digit hc, ih rest _ (fun x hx => h x (List.mem_cons_of_mem c hx)),
      List.foldl_cons]

theorem parseNatAux_stop {rest : List Char} (h : nonDigitStart rest = true) (acc : Nat) :
    parseNatAux rest acc = (acc, rest) := by
  cases rest with
  | nil => rfl
  | cons c cs =>
    unfold nonDigitStart at h
    rw [Bool.not_eq_true'] at h
    show (if isDigitChar c = true then parseNatAux cs (acc * 10 + (c.toNat - 48))
      else (acc, c :: cs)) = (acc, c :: cs)
    rw [h]
    simp

theorem natCharsAux_foldl :
    ∀ (f n acc : Nat), n ≤ f →
      (natCharsAux (f + 1) n).foldl (fun a c => a * 10 + (c.toNat - 48)) acc =
        acc * 10 ^ (natCharsAux (f + 1) n).length + n := by
  intro f
  induction f with
  | zero =>
    intro n acc hn
    interval_cases n
    simp [natCharsAux, digitChar_sub 0 (by decide)]
  | succ f ih =>
    intro n acc hn
    by_cases h10 : n < 10
    · have he : natCharsAux (f + 2) n = [digitChar n] := by
        show (if n < 10 then [digitChar n]
          else natCharsAux (f + 1) (n / 10) ++ [digitChar (n % 10)]) = _
        rw [if_pos h10]
      rw [he]
      simp [digitChar_sub n h10]
    · have hrec : natCharsAux (f + 2) n =
          natCharsAux (f + 1) (n / 10) ++ [digitChar (n % 10)] := by
        show (if n < 10 then [digitChar n]
          else natCharsAux (f + 1) (n / 10) ++ [digitChar (n % 10)]) = _
        rw [if_neg h10]
      have hdiv : n / 10 ≤ f := by
        have : n / 10 < n := Nat.div_lt_self (by omega) (by decide)
        omega
      rw [hrec, List.foldl_append, ih (n / 10) acc hdiv]
      have h10' : (0 : Nat) < 10 := by decide
      have hsub := digitChar_sub (n % 10) (Nat.mod_lt _ h10')
      simp only [List.foldl_cons, List.foldl_nil, List.length_append,
        List.length_cons, List.length_nil, hsub]
      rw [pow_succ, Nat.add_mul, Nat.mul_assoc]
      omega

theorem natChars_parse (n : Nat) {rest : List Char} (h : nonDigitStart rest = true) :
    parseNatAux (natChars n ++ rest) 0 = (n, rest) := by
  unfold natChars
  rw [parseNatAux_digits _ rest 0 (natCharsAux_digits n n (Nat.le_refl n)).2,
    parseNatAux_stop h, natCharsAux_foldl n n 0 (Nat.le_refl n)]
  simp

theorem isDigitChar_bounds {c : Char} (h : isDigitChar c = true) :
    48 ≤ c.toNat ∧ c.toNat ≤ 57 := by
  unfold isDigitChar at h
  rw [Bool.and_eq_true, decide_eq_true_eq, decide_eq_true_eq] at h
  obtain ⟨h1, h2⟩ := h
  rw [Char.le_def, UInt32.le_def] at h1 h2
  exact ⟨h1, h2⟩

theorem char_ne_of_toNat_ne {c d : Char} (h : ¬(c.toNat = d.toNat)) : ¬(c = d) :=
  fun he => h (by rw [he])

theorem digit_not_special {c : Char} (h : isDigitChar c = true) :
    isWs c = false ∧ ¬(c = '"') ∧ ¬(c = '[') ∧ ¬(c = Char.ofNat 123) ∧ ¬(c = ']') := by
  obtain ⟨h1, h2⟩ := isDigitChar_bounds h
  have hsp : (' ' : Char).toNat = 32 := by decide
  have hnl : ('\n' : Char).toNat = 10 := by decide
  have htb : ('\t' : Char).toNat = 9 := by decide
  have hcr : ('\r' : Char).toNat = 13 := by decide
  have hqu : ('"' : Char).toNat = 34 := by decide
  have hlb : ('[' : Char).toNat = 91 := by decide
  have hob : (Char.ofNat 123).toNat = 123 := by decide
  have hrb : (']' : Char).toNat = 93 := by decide
  refine ⟨?_, ?_, ?_, ?_, ?_⟩
  · unfold isWs
    rw [decide_eq_false (char_ne_of_toNat_ne (by omega)),
      decide_eq_false (char_ne_of_toNat_ne (by omega)),
      decide_eq_false (char_ne_of_toNat_ne (by omega)),
      decide_eq_false (char_ne_of_toNat_ne (by omega))]
    rfl
  · exact char_ne_of_toNat_ne (by omega)
  · exact char_ne_of_toNat_ne (by omega)
  · exact char_ne_of_toNat_ne (by omega)
  · exact char_ne_of_toNat_ne (by omega)

theorem natChars_head (n : Nat) :
    ∃ c l, natChars n = c :: l ∧ isDigitChar c = true := by
  obtain ⟨hne, hdig⟩ := natCharsAux_digits n n (Nat.le_refl n)
  unfold natChars
  cases hc : natCharsAux (n + 1) n with
  | nil => exact absurd hc hne
  | cons c l =>
    refine ⟨c, l, rfl, ?_⟩
    apply hdig
    rw [hc]
    exact List.mem_cons_self c l

theorem printJson_head (j : Json) :
    ∃ c l, printJson j = c :: l ∧ isWs c = false ∧ ¬(c = ']') := by
  match j with
  | .str s => exact ⟨'"', s.data ++ ['"'], rfl, by decide, by decide⟩
  | .num n =>
    obtain ⟨c, l, hc, hd⟩ := natChars_head n
    obtain ⟨hw, _, _, _, hrb⟩ := digit_not_special hd
    exact ⟨c, l, hc, hw, hrb⟩
  | .bool true => exact ⟨'t', ['r', 'u', 'e'], rfl, by decide, by decide⟩
  | .bool false => exact ⟨'f', ['a', 'l', 's', 'e'], rfl, by decide, by decide⟩
  | .null => exact ⟨'n', ['u', 'l', 'l'], rfl, by decide, by decide⟩
  | .arr xs => exact ⟨'[', printArr xs, rfl, by decide, by decide⟩
  | .obj es => exact ⟨Char.ofNat 123, printObj es, rfl, by decide, by decide⟩

theorem parseVal_quote (f : Nat) (cs : List Char) :
    parseVal (f + 1) ('"' :: cs) =
      match parseStringBody cs with
      | .ok (chars, rest') => .ok (.str (String.mk chars), rest')
      | .error msg => .error msg := rfl

theorem parseVal_lbracket (f : Nat) (cs : List Char) :
    parseVal (f + 1) ('[' :: cs) =
      match skipWs cs with
      | ']' :: rest' => .ok (.arr .nil, rest')
      | rest' =>
        match parseArrItems f rest' with
        | .ok (xs, rest'') => .ok (.arr xs, rest'')
        | .error msg => .error msg := rfl

theorem parseVal_lbrace (f : Nat) (cs : List Char) :
    parseVal (f + 1) (Char.ofNat 123 :: cs) =
      match skipWs cs with
      | d :: rest' =>
        if d = Char.ofNat 125 then .ok (.obj .nil, rest')
        else
          match parseObjItems f (d :: rest') with
          | .ok (es, rest'') => .ok (.obj es, rest'')
          | .error msg => .error msg
      | [] => .error "malformed syntax: unterminated object" := rfl

theorem parseVal_true (f : Nat) (cs : List Char) :
    parseVal (f + 1) ('t' :: 'r' :: 'u' :: 'e' :: cs) = .ok (.bool true, cs) := rfl

theorem parseVal_false (f : Nat) (cs : List Char) :
    parseVal (f + 1) ('f' :: 'a' :: 'l' :: 's' :: 'e' :: cs) = .ok (.bool false, cs) := rfl

theorem parseVal_nulllit (f : Nat) (cs : List Char) :
    parseVal (f + 1) ('n' :: 'u' :: 'l' :: 'l' :: cs) = .ok (.null, cs) := rfl

theorem parseVal_digit (f : Nat) {c : Char} (hd : isDigitChar c = true) (cs : List Char) :
    parseVal (f + 1) (c :: cs) =
      .ok (.num (parseNatAux (c :: cs) 0).1, (parseNatAux (c :: cs) 0).2) := by
  obtain ⟨hw, hq, hlb, hob, _⟩ := digit_not_special hd
  conv_lhs => rw [parseVal]
  rw [skipWs_cons hw]
  dsimp only
  rw [if_neg hq, if_neg hlb, if_neg hob, if_pos hd]

theorem parseArrItems_eq (f : Nat) (cs : List Char) :
    parseArrItems (f + 1) cs =
      match parseVal f cs with
      | .ok (v, rest) =>
        match skipWs rest with
        | ',' :: rest' =>
          match parseArrItems f rest' with
          | .ok (vs, rest'') => .ok (.cons v vs, rest'')
          | .error msg => .error msg
        | ']' :: rest' => .ok (.cons v .nil, rest')
        | _ => .error "malformed syntax: expected comma or closing bracket"
      | .error msg => .error msg := rfl

theorem parseObjItems_quote (f : Nat) (cs : List Char) :
    parseObjItems (f + 1) ('"' :: cs) =
      match parseStringBody cs with
      | .ok (kchars, rest1) =>
        match skipWs rest1 with
        | ':' :: rest2 =>
          match parseVal f rest2 with
          | .ok (v, rest3) =>
            match skipWs rest3 with
            | ',' :: rest4 =>
              match parseObjItems f rest4 with
              | .ok (es, rest5) => .ok (.cons (String.mk kchars) v es, rest5)
              | .error msg => .error msg
            | d :: rest4 =>
              if d = Char.ofNat 125 then .ok (.cons (String.mk kchars) v .nil, rest4)
              else .error "malformed syntax: expected comma or closing brace"
            | [] => .error "malformed syntax: unterminated object"
          | .error msg => .error msg
        | _ => .error "malformed syntax: expected colon"
      | .error msg => .error msg := rfl

theorem printArrTail_nonDigit (vs : JArr) (rest : List Char) :
    nonDigitStart (printArrTail vs ++ rest) = true := by
  cases vs <;> rfl

theorem printObjTail_nonDigit (es : JObj) (rest : List Char) :
    nonDigitStart (printObjTail es ++ rest) = true := by
  cases es <;> rfl

theorem goodJson_str {s : String} (h : goodJson (.str s) = true) :
    ∀ c ∈ s.data, nameChar c = true := by
  intro c hc
  exact List.all_eq_true.mp h c hc

theorem parse_print_aux (N : Nat) :
    (∀ j, jsonSize j ≤ N → goodJson j = true →
      ∀ f, jsonSize j ≤ f → ∀ rest, nonDigitStart rest = true →
        parseVal f (printJson j ++ rest) = .ok (j, rest)) ∧
    (∀ v vs, 1 + jsonSize v + jsonSizeA vs ≤ N → goodJson v = true → goodJArr vs = true →
      ∀ f, 1 + jsonSize v + jsonSizeA vs ≤ f → ∀ rest, nonDigitStart rest = true →
        parseArrItems f (printJson v ++ (printArrTail vs ++ rest)) =
          .ok (.cons v vs, rest)) ∧
    (∀ k v es, 1 + jsonSize v + jsonSizeO es ≤ N → plainString k = true →
      goodJson v = true → goodJObj es = true →
      ∀ f, 1 + jsonSize v + jsonSizeO es ≤ f → ∀ rest, nonDigitStart rest = true →
        parseObjItems f
          ('"' :: (k.data ++ ('"' :: ':' :: (printJson v ++ (printObjTail es ++ rest))))) =
          .ok (.cons k v es, rest)) := by
  induction N using Nat.strong_induction_on with
  | _ N ih =>
    refine ⟨?_, ?_, ?_⟩
    · intro j hN hg f hf rest hrest
      obtain ⟨f1, rfl⟩ : ∃ f1, f = f1 + 1 := ⟨f - 1, by have := jsonSize_pos j; omega⟩
      match j with
      | .str s =>
        show parseVal (f1 + 1) (printString s ++ rest) = .ok (.str s, rest)
        simp only [printString, List.cons_append, List.append_assoc, List.singleton_append,
          List.nil_append]
        rw [parseVal_quote, parseStringBody_plain s.data rest (goodJson_str hg)]
      | .num n =>
        obtain ⟨c, l, hcl, hd⟩ := natChars_head n
        show parseVal (f1 + 1) (natChars n ++ rest) = .ok (.num n, rest)
        rw [hcl, List.cons_append, parseVal_digit f1 hd, ← List.cons_append, ← hcl,
          natChars_parse n hrest]
      | .bool true =>
        show parseVal (f1 + 1) (['t', 'r', 'u', 'e'] ++ rest) = .ok (.bool true, rest)
        simp only [List.cons_append, List.nil_append]
        exact parseVal_true f1 rest
      | .bool false =>
        show parseVal (f1 + 1) (['f', 'a', 'l', 's', 'e'] ++ rest) = .ok (.bool false, rest)
        simp only [List.cons_append, List.nil_append]
        exact parseVal_false f1 rest
      | .null =>
        show parseVal (f1 + 1) (['n', 'u', 'l', 'l'] ++ rest) = .ok (.null, rest)
        simp only [List.cons_append, List.nil_append]
        exact parseVal_nulllit f1 rest
      | .arr .nil =>
        show parseVal (f1 + 1) (('[' :: [']']) ++ rest) = .ok (.arr .nil, rest)
        simp only [List.cons_append, List.nil_append]
        rw [parseVal_lbracket, skipWs_cons (by decide)]
        rfl
      | .arr (.cons v vs) =>
        simp only [jsonSize, jsonSizeA] at hN hf
        simp only [goodJson, goodJArr, Bool.and_eq_true] at hg
        obtain ⟨hgv, hgvs⟩ := hg
        show parseVal (f1 + 1) (('[' :: (printJson v ++ printArrTail vs)) ++ rest) =
          .ok (.arr (.cons v vs), rest)
        simp only [List.cons_append, List.append_assoc]
        rw [parseVal_lbracket]
        obtain ⟨c0, l0, hc0, hw0, hnb0⟩ := printJson_head v
        rw [hc0, List.cons_append, skipWs_cons hw0]
        have harr : parseArrItems f1 (printJson v ++ (printArrTail vs ++ rest)) =
            .ok (.cons v vs, rest) := by
          have hp := jsonSize_pos v
          exact (ih (N - 1) (by omega)).2.1 v vs (by omega) hgv hgvs f1 (by omega) rest hrest
        rw [hc0, List.cons_append] at harr
        split
        · rename_i rest' heq
          exact absurd (List.cons.inj heq).1 hnb0
        · rw [harr]
      | .obj .nil =>
        show parseVal (f1 + 1) ((Char.ofNat 123 :: [Char.ofNat 125]) ++ rest) =
          .ok (.obj .nil, rest)
        simp only [List.cons_append, List.nil_append]
        rw [parseVal_lbrace, skipWs_cons (by decide)]
        rfl
      | .obj (.cons k v es) =>
        simp only [jsonSize, jsonSizeO] at hN hf
        simp only [goodJson, goodJObj, Bool.and_eq_true] at hg
        obtain ⟨⟨hk, hgv⟩, hges⟩ := hg
        show parseVal (f1 + 1)
          ((Char.ofNat 123 :: (printString k ++ ':' :: (printJson v ++ printObjTail es))) ++ rest) =
          .ok (.obj (.cons k v es), rest)
        simp only [printString, List.cons_append, List.append_assoc, List.singleton_append,
          List.nil_append]
        rw [parseVal_lbrace, skipWs_cons (by decide)]
        dsimp only
        rw [if_neg (by decide)]
        have hp := jsonSize_pos v
        have hobj := (ih (N - 1) (by omega)).2.2 k v es (by omega) hk hgv hges f1
          (by omega) rest hrest
        rw [hobj]
    · intro v vs hN hgv hgvs f hf rest hrest
      obtain ⟨f1, rfl⟩ : ∃ f1, f = f1 + 1 := ⟨f - 1, by omega⟩
      have hp := jsonSize_pos v
      rw [parseArrItems_eq]
      have hval : parseVal f1 (printJson v ++ (printArrTail vs ++ rest)) =
          .ok (v, printArrTail vs ++ rest) :=
        (ih (N - 1) (by omega)).1 v (by omega) hgv f1 (by omega)
          (printArrTail vs ++ rest) (printArrTail_nonDigit vs rest)
      rw [hval]
      dsimp only
      cases vs with
      | nil =>
        show (match skipWs ([']'] ++ rest) with
          | ',' :: rest' =>
            match parseArrItems f1 rest' with
            | .ok (vs2, rest'') => Except.ok (JArr.cons v vs2, rest'')
            | .error msg => Except.error msg
          | ']' :: rest' => Except.ok (JArr.cons v .nil, rest')
          | _ => Except.error "malformed syntax: expected comma or closing bracket") =
          .ok (.cons v .nil, rest)
        simp only [List.singleton_append]
        rw [skipWs_cons (by decide)]
        rfl
      | cons v2 vs2 =>
        simp only [goodJArr, Bool.and_eq_true] at hgvs
        obtain ⟨hgv2, hgvs2⟩ := hgvs
        simp only [jsonSizeA] at hN hf
        show (match skipWs ((',' :: (printJson v2 ++ printArrTail vs2)) ++ rest) with
          | ',' :: rest' =>
            match parseArrItems f1 rest' with
            | .ok (vs3, rest'') => Except.ok (JArr.cons v vs3, rest'')
            | .error msg => Except.error msg
          | ']' :: rest' => Except.ok (JArr.cons v .nil, rest')
          | _ => Except.error "malformed syntax: expected comma or closing bracket") =
          .ok (.cons v (.cons v2 vs2), rest)
        simp only [List.cons_append, List.append_assoc]
        rw [skipWs_cons (by decide)]
        have h2 : parseArrItems f1 (printJson v2 ++ (printArrTail vs2 ++ rest)) =
            .ok (.cons v2 vs2, rest) := by
          have hp2 := jsonSize_pos v2
          exact (ih (N - 1) (by omega)).2.1 v2 vs2 (by omega) hgv2 hgvs2 f1 (by omega)
            rest hrest
        show (match parseArrItems f1 (printJson v2 ++ (printArrTail vs2 ++ rest)) with
          | Except.ok (vs3, rest'') => Except.ok (JArr.cons v vs3, rest'')
          | Except.error msg => Except.error msg) =
          Except.ok (JArr.cons v (JArr.cons v2 vs2), rest)
        rw [h2]
    · intro k v es hN hk hgv hges f hf rest hrest
      obtain ⟨f1, rfl⟩ : ∃ f1, f = f1 + 1 := ⟨f - 1, by omega⟩
      have hp := jsonSize_pos v
      rw [parseObjItems_quote]
      have hkchars : ∀ c ∈ k.data, nameChar c = true := fun c hc =>
        List.all_eq_true.mp hk c hc
      rw [parseStringBody_plain k.data
        (':' :: (printJson v ++ (printObjTail es ++ rest))) hkchars]
      have hval : parseVal f1 (printJson v ++ (printObjTail es ++ rest)) =
          .ok (v, printObjTail es ++ rest) :=
        (ih (N - 1) (by omega)).1 v (by omega) hgv f1 (by omega)
          (printObjTail es ++ rest) (printObjTail_nonDigit es rest)
      show (match parseVal f1 (printJson v ++ (printObjTail es ++ rest)) with
        | Except.ok (v2, rest3) =>
          match skipWs rest3 with
          | ',' :: rest4 =>
            match parseObjItems f1 rest4 with
            | Except.ok (es2, rest5) => Except.ok (JObj.cons (String.mk k.data) v2 es2, rest5)
            | Except.error msg => Except.error msg
          | d :: rest4 =>
            if d = Char.ofNat 125 then Except.ok (JObj.cons (String.mk k.data) v2 JObj.nil, rest4)
            else Except.error "malformed syntax: expected comma or closing brace"
          | [] => Except.error "malformed syntax: unterminated object"
        | Except.error msg => Except.error msg) = Except.ok (JObj.cons k v es, rest)
      rw [hval]
      dsimp only
      cases es with
      | nil =>
        show (match skipWs ([Char.ofNat 125] ++ rest) with
          | ',' :: rest4 =>
            match parseObjItems f1 rest4 with
            | .ok (es2, rest5) => Except.ok (JObj.cons (String.mk k.data) v es2, rest5)
            | .error msg => Except.error msg
          | d :: rest4 =>
            if d = Char.ofNat 125 then Except.ok (JObj.cons (String.mk k.data) v .nil, rest4)
            else Except.error "malformed syntax: expected comma or closing brace"
          | [] => Except.error "malformed syntax: unterminated object") =
          .ok (.cons k v .nil, rest)
        simp only [List.singleton_append]
        rw [skipWs_cons (by decide)]
        rfl
      | cons k2 v2 es2 =>
        simp only [goodJObj, Bool.and_eq_true] at hges
        obtain ⟨⟨hk2, hgv2⟩, hges2⟩ := hges
        simp only [jsonSizeO] at hN hf
        show (match skipWs ((',' :: (printString k2 ++ ':' :: (printJson v2 ++ printObjTail es2))) ++ rest) with
          | ',' :: rest4 =>
            match parseObjItems f1 rest4 with
            | .ok (es3, rest5) => Except.ok (JObj.cons (String.mk k.data) v es3, rest5)
            | .error msg => Except.error msg
          | d :: rest4 =>
            if d = Char.ofNat 125 then Except.ok (JObj.cons (String.mk k.data) v .nil, rest4)
            else Except.error "malformed syntax: expected comma or closing brace"
          | [] => Except.error "malformed syntax: unterminated object") =
          .ok (.cons k v (.cons k2 v2 es2), rest)
        simp only [printString, List.cons_append, List.append_assoc, List.singleton_append]
        rw [skipWs_cons (by decide)]
        have h2 : parseObjItems f1
            ('"' :: (k2.data ++ ('"' :: ':' :: (printJson v2 ++ (printObjTail es2 ++ rest))))) =
            .ok (.cons k2 v2 es2, rest) := by
          have hp2 := jsonSize_pos v2
          exact (ih (N - 1) (by omega)).2.2 k2 v2 es2 (by omega) hk2 hgv2 hges2 f1
            (by omega) rest hrest
        show (match parseObjItems f1
            ('"' :: (k2.data ++ ('"' :: ':' :: (printJson v2 ++ (printObjTail es2 ++ rest))))) with
          | Except.ok (es3, rest5) => Except.ok (JObj.cons (String.mk k.data) v es3, rest5)
          | Except.error msg => Except.error msg) =
          Except.ok (JObj.cons k v (JObj.cons k2 v2 es2), rest)
        rw [h2]

theorem natChars_ne_nil (n : Nat) : natChars n ≠ [] :=
  (natCharsAux_digits n n (Nat.le_refl n)).1

theorem printLength_aux (N : Nat) :
    (∀ j, jsonSize j ≤ N → jsonSize j ≤ (printJson j).length) ∧
    (∀ xs, jsonSizeA xs ≤ N → jsonSizeA xs ≤ (printArr xs).length ∧
      jsonSizeA xs + 1 ≤ (printArrTail xs).length) ∧
    (∀ es, jsonSizeO es ≤ N → jsonSizeO es ≤ (printObj es).length ∧
      jsonSizeO es + 1 ≤ (printObjTail es).length) := by
  induction N using Nat.strong_induction_on with
  | _ N ih =>
    refine ⟨?_, ?_, ?_⟩
    · intro j hN
      match j with
      | .str s =>
        show jsonSize (.str s) ≤ (printString s).length
        simp [printString, jsonSize]
      | .num n =>
        show jsonSize (.num n) ≤ (natChars n).length
        have := List.length_pos.mpr (natChars_ne_nil n)
        simp only [jsonSize]
        omega
      | .bool b => cases b <;> simp [printJson, jsonSize]
      | .null => simp [printJson, jsonSize]
      | .arr xs =>
        simp only [jsonSize] at hN
        have h1 := ((ih (N - 1) (by omega)).2.1 xs (by omega)).1
        simp only [printJson, jsonSize, List.length_cons]
        omega
      | .obj es =>
        simp only [jsonSize] at hN
        have h1 := ((ih (N - 1) (by omega)).2.2 es (by omega)).1
        simp only [printJson, jsonSize, List.length_cons]
        omega
    · intro xs hN
      match xs with
      | .nil => simp [printArr, printArrTail, jsonSizeA]
      | .cons v vs =>
        simp only [jsonSizeA] at hN
        have hp := jsonSize_pos v
        have h1 := (ih (N - 1) (by omega)).1 v (by omega)
        have h2 := (ih (N - 1) (by omega)).2.1 vs (by omega)
        constructor
        · simp only [printArr, jsonSizeA, List.length_append]
          omega
        · simp only [printArrTail, jsonSizeA, List.length_cons, List.length_append]
          omega
    · intro es hN
      match es with
      | .nil => simp [printObj, printObjTail, jsonSizeO]
      | .cons k v tl =>
        simp only [jsonSizeO] at hN
        have hp := jsonSize_pos v
        have h1 := (ih (N - 1) (by omega)).1 v (by omega)
        have h2 := (ih (N - 1) (by omega)).2.2 tl (by omega)
        constructor
        · simp only [printObj, printString, jsonSizeO, List.length_append,
            List.length_cons]
          omega
        · simp only [printObjTail, printString, jsonSizeO, List.length_append,
            List.length_cons]
          omega

theorem stringElems_syms (ss : List String) : stringElems (symsToJson ss) = some ss := by
  induction ss with
  | nil => rfl
  | cons s tl ih =>
    show stringElems (.cons (.str s) (symsToJson tl)) = some (s :: tl)
    unfold stringElems
    rw [ih]

theorem buildSchema_str_eq (f : Nat) (s : String) (env : List String) :
    buildSchema (f + 1) (.str s) env =
      match primOfString s with
      | some p => .ok (p, env)
      | none =>
        if env.contains s then .ok (.ref s, env)
        else .error (.InvalidSchema ("unknown type reference: " ++ s)) := rfl

theorem buildSchema_arr_eq (f : Nat) (xs : JArr) (env : List String) :
    buildSchema (f + 1) (.arr xs) env =
      match buildUnionAlts f xs env with
      | .ok (alts, env') =>
        if hasUnionMember alts then
          .error (.InvalidSchema "malformed syntax: union may not immediately contain a union")
        else if distinctStrings (tagsOf alts) then .ok (.union alts, env')
        else .error (.InvalidSchema "duplicate union branch tag")
      | .error e => .error e := rfl

theorem buildSchema_record_eq (f : Nat) (n : String) (fj : JArr) (env : List String) :
    buildSchema (f + 1) (.obj (.cons "name" (.str n) (.cons "type" (.str "record")
      (.cons "fields" (.arr fj) .nil)))) env =
      (if validName n then
        if env.contains n then
          .error (.InvalidSchema ("duplicate name definition: " ++ n))
        else
          match buildFieldList f fj (n :: env) with
          | .ok (flds, env') => .ok (.record n flds, env')
          | .error e => .error e
      else .error (.InvalidSchema ("malformed syntax: invalid name: " ++ n))) := rfl

theorem buildSchema_enum_eq (f : Nat) (n : String) (sj : JArr) (env : List String) :
    buildSchema (f + 1) (.obj (.cons "name" (.str n) (.cons "type" (.str "enum")
      (.cons "symbols" (.arr sj) .nil)))) env =
      (if validName n then
        if env.contains n then
          .error (.InvalidSchema ("duplicate name definition: " ++ n))
        else
          match stringElems sj with
          | some ss =>
            if ss.all validName then .ok (.enum n ss, n :: env)
            else .error (.InvalidSchema "malformed syntax: invalid enum symbol")
          | none => .error (.InvalidSchema "malformed syntax: enum symbols must be strings")
      else .error (.InvalidSchema ("malformed syntax: invalid name: " ++ n))) := rfl

theorem buildSchema_array_eq (f : Nat) (ij : Json) (env : List String) :
    buildSchema (f + 1) (.obj (.cons "type" (.str "array") (.cons "items" ij .nil))) env =
      match buildSchema f ij env with
      | .ok (it, env') => .ok (.array it, env')
      | .error e => .error e := rfl

theorem buildSchema_map_eq (f : Nat) (vj : Json) (env : List String) :
    buildSchema (f + 1) (.obj (.cons "type" (.str "map") (.cons "values" vj .nil))) env =
      match buildSchema f vj env with
      | .ok (vt, env') => .ok (.map vt, env')
      | .error e => .error e := rfl

theorem buildSchema_fixed_eq (f : Nat) (n : String) (sz : Nat) (env : List String) :
    buildSchema (f + 1) (.obj (.cons "name" (.str n) (.cons "type" (.str "fixed")
      (.cons "size" (.num sz) .nil)))) env =
      (if validName n then
        if env.contains n then
          .error (.InvalidSchema ("duplicate name definition: " ++ n))
        else .ok (.fixed n sz, n :: env)
      else .error (.InvalidSchema ("malformed syntax: invalid name: " ++ n))) := rfl

theorem buildUnionAlts_cons_eq (f : Nat) (j : Json) (js : JArr) (env : List String) :
    buildUnionAlts (f + 1) (.cons j js) env =
      match buildSchema f j env with
      | .ok (s, env') =>
        match buildUnionAlts f js env' with
        | .ok (ss, env'') => .ok (.cons s ss, env'')
        | .error e => .error e
      | .error e => .error e := rfl

theorem buildFieldList_cons_eq (f : Nat) (fn : String) (ftj : Json) (fjs : JArr)
    (env : List String) :
    buildFieldList (f + 1) (.cons (.obj (.cons "name" (.str fn)
      (.cons "type" ftj .nil))) fjs) env =
      (if validName fn then
        match buildSchema f ftj env with
        | .ok (ft, env') =>
          match buildFieldList f fjs env' with
          | .ok (tl, env'') => .ok (.cons fn ft tl, env'')
          | .error e => .error e
        | .error e => .error e
      else .error (.InvalidSchema ("malformed syntax: invalid name: " ++ fn))) := rfl

theorem build_canonical_aux (N : Nat) :
    (∀ s env env', jsonSize (toJson s) ≤ N → SchemaOk env s env' →
      ∀ f, jsonSize (toJson s) + 1 ≤ f → buildSchema f (toJson s) env = .ok (s, env')) ∧
    (∀ fs env env', jsonSizeA (fieldsToJson fs) ≤ N → FieldsOk env fs env' →
      ∀ f, jsonSizeA (fieldsToJson fs) + 1 ≤ f →
        buildFieldList f (fieldsToJson fs) env = .ok (fs, env')) ∧
    (∀ alts env env', jsonSizeA (altsToJson alts) ≤ N → AltsOk env alts env' →
      ∀ f, jsonSizeA (altsToJson alts) + 1 ≤ f →
        buildUnionAlts f (altsToJson alts) env = .ok (alts, env')) := by
  induction N using Nat.strong_induction_on with
  | _ N ih =>
    refine ⟨?_, ?_, ?_⟩
    · intro s env env' hsz hok f hf
      obtain ⟨f1, rfl⟩ : ∃ f1, f = f1 + 1 :=
        ⟨f - 1, by have := jsonSize_pos (toJson s); omega⟩
      cases hok with
      | prim _ _ hp =>
        cases s <;> simp [isPrimitive] at hp <;> rfl
      | ref _ n hp hc =>
        show buildSchema (f1 + 1) (.str n) env = .ok (.ref n, env)
        rw [buildSchema_str_eq, hp]
        dsimp only
        rw [if_pos hc]
      | record _ n fs _ hv hc hfs =>
        show buildSchema (f1 + 1) (.obj (.cons "name" (.str n) (.cons "type" (.str "record")
          (.cons "fields" (.arr (fieldsToJson fs)) .nil)))) env = .ok (.record n fs, env')
        rw [buildSchema_record_eq, if_pos hv, if_neg (by rw [hc]; exact Bool.false_ne_true)]
        simp only [toJson, jsonSize, jsonSizeO] at hsz hf
        have hfld := (ih (N - 1) (by omega)).2.1 fs (n :: env) env' (by omega) hfs f1
          (by omega)
        rw [hfld]
      | enum _ n ss hv hc hall =>
        show buildSchema (f1 + 1) (.obj (.cons "name" (.str n) (.cons "type" (.str "enum")
          (.cons "symbols" (.arr (symsToJson ss)) .nil)))) env = .ok (.enum n ss, n :: env)
        rw [buildSchema_enum_eq, if_pos hv, if_neg (by rw [hc]; exact Bool.false_ne_true),
          stringElems_syms]
        dsimp only
        rw [if_pos hall]
      | array _ it _ hit =>
        show buildSchema (f1 + 1) (.obj (.cons "type" (.str "array")
          (.cons "items" (toJson it) .nil))) env = .ok (.array it, env')
        rw [buildSchema_array_eq]
        simp only [toJson, jsonSize, jsonSizeO] at hsz hf
        have h1 := (ih (N - 1) (by omega)).1 it env env' (by omega) hit f1 (by omega)
        rw [h1]
      | map _ vt _ hvt =>
        show buildSchema (f1 + 1) (.obj (.cons "type" (.str "map")
          (.cons "values" (toJson vt) .nil))) env = .ok (.map vt, env')
        rw [buildSchema_map_eq]
        simp only [toJson, jsonSize, jsonSizeO] at hsz hf
        have h1 := (ih (N - 1) (by omega)).1 vt env env' (by omega) hvt f1 (by omega)
        rw [h1]
      | union _ alts _ halts hm hd =>
        show buildSchema (f1 + 1) (.arr (altsToJson alts)) env = .ok (.union alts, env')
        rw [buildSchema_arr_eq]
        simp only [toJson, jsonSize] at hsz hf
        have h1 := (ih (N - 1) (by omega)).2.2 alts env env' (by omega) halts f1 (by omega)
        rw [h1]
        dsimp only
        rw [if_neg (by rw [hm]; exact Bool.false_ne_true), if_pos hd]
      | fixed _ n sz hv hc =>
        show buildSchema (f1 + 1) (.obj (.cons "name" (.str n) (.cons "type" (.str "fixed")
          (.cons "size" (.num sz) .nil)))) env = .ok (.fixed n sz, n :: env)
        rw [buildSchema_fixed_eq, if_pos hv, if_neg (by rw [hc]; exact Bool.false_ne_true)]
    · intro fs env env' hsz hok f hf
      obtain ⟨f1, rfl⟩ : ∃ f1, f = f1 + 1 := ⟨f - 1, by omega⟩
      cases hok with
      | nil _ => rfl
      | cons _ fn ft tl env2 _ hv hft htl =>
        show buildFieldList (f1 + 1) (.cons (.obj (.cons "name" (.str fn)
          (.cons "type" (toJson ft) .nil))) (fieldsToJson tl)) env = .ok (.cons fn ft tl, env')
        rw [buildFieldList_cons_eq, if_pos hv]
        simp only [fieldsToJson, jsonSizeA, jsonSize, jsonSizeO] at hsz hf
        have h1 := (ih (N - 1) (by omega)).1 ft env env2 (by omega) hft f1 (by omega)
        have h2 := (ih (N - 1) (by omega)).2.1 tl env2 env' (by omega) htl f1 (by omega)
        rw [h1]
        dsimp only
        rw [h2]
    · intro alts env env' hsz hok f hf
      obtain ⟨f1, rfl⟩ : ∃ f1, f = f1 + 1 := ⟨f - 1, by omega⟩
      cases hok with
      | nil _ => rfl
      | cons _ s1 ss env2 _ hs1 hss =>
        show buildUnionAlts (f1 + 1) (.cons (toJson s1) (altsToJson ss)) env =
          .ok (.cons s1 ss, env')
        rw [buildUnionAlts_cons_eq]
        simp only [altsToJson, jsonSizeA] at hsz hf
        have hp := jsonSize_pos (toJson s1)
        have h1 := (ih (N - 1) (by omega)).1 s1 env env2 (by omega) hs1 f1 (by omega)
        have h2 := (ih (N - 1) (by omega)).2.2 ss env2 env' (by omega) hss f1 (by omega)
        rw [h1]
        dsimp only
        rw [h2]

theorem parse_canonical {s : Schema} {env' : List String}
    (hok : SchemaOk [] s env') : parse_str (canonical_form s) = .ok s := by
  have hgood := ((toJson_good_aux (jsonSize (toJson s))).1) s [] env'
    (Nat.le_refl _) hok envOk_nil
  have hlen := (printLength_aux (jsonSize (toJson s))).1 (toJson s) (Nat.le_refl _)
  have hparse : parseJson (printJson (toJson s)) = .ok (toJson s, []) := by
    unfold parseJson
    have h1 := (parse_print_aux (jsonSize (toJson s))).1 (toJson s) (Nat.le_refl _)
      hgood.1 ((printJson (toJson s)).length + 1) (by omega) [] rfl
    simpa using h1
  have hbuild := (build_canonical_aux (jsonSize (toJson s))).1 s [] env'
    (Nat.le_refl _) hok (jsonSize (toJson s) + 1) (Nat.le_refl _)
  unfold parse_str
  rw [show (canonical_form s).data = printJson (toJson s) from rfl, hparse]
  dsimp only
  show (match buildSchema (jsonSize (toJson s) + 1) (toJson s) [] with
    | .ok (s0, _) => Except.ok s0
    | .error e => Except.error e) = Except.ok s
  rw [hbuild]

/-- C4: canonical form is idempotent under round-trip: feeding the canonical
bytes of a parsed schema through `translate_schema` yields a schema whose
canonicalization equals the original canonical bytes. -/
theorem canonical_roundtrip_idempotent (S : String) (s : Schema)
    (h : parse_str S = .ok s) :
    ∃ s', translate_schema (utf8Encode (canonical_form s)) = .ok s' ∧
      utf8Encode (canonical_form s') = utf8Encode (canonical_form s) := by
  obtain ⟨env', hok⟩ := parse_str_sound h
  refine ⟨s, ?_, rfl⟩
  unfold translate_schema
  rw [utf8Decode_canonical hok envOk_nil]
  exact parse_canonical hok

/-- Witness for C4 at the schema text `"int"`. -/
theorem canonical_roundtrip_idempotent_witness :
    ∃ s', translate_schema (utf8Encode (canonical_form Schema.int)) = .ok s' ∧
      utf8Encode (canonical_form s') = utf8Encode (canonical_form Schema.int) :=
  canonical_roundtrip_idempotent "\"int\"" Schema.int rfl

end AvroNoStd
